import Mathlib

/-!
Shallow embedding of the workflow scheduler and step-execution engine of
`backend/server.py` (MaxTezza/WorkflowManagerAgent).

The embedding covers:
* the workflow data model and the pydantic `WorkflowCreate` request
  (server.py lines 66-89, 970-993),
* the step dispatch chain of `execute_workflow_step` (lines 710-815),
* one iteration ("tick") of `agent_decision_engine` (lines 846-928):
  the advancement loop over the running snapshot followed by the
  two-branch admission of one pending workflow,
* the module-level `agent_state` dictionary (lines 121-130).

Modelling conventions:
* the Mongo collection `workflows_collection` is a `List Workflow`;
  `find_one({"id": wid})` is `findWorkflow`, `update_one({"id": wid}, {"$set": ...})`
  is `updateWorkflow` (a map that rewrites every record carrying that id),
* `datetime.now()` is a `Nat` tick clock (`SchedState.now`), incremented once
  per loop iteration,
* the bodies of the three fallible step handlers
  (`execute_market_research_step`, `execute_template_creation_step`,
  `execute_listing_creation_step`) are external collaborators per the spec;
  they are the parameter `hr : Step → StepResult`.  Handler payloads beyond
  the `success` flag (research data, revenue estimates, ...) are abstracted
  into the small `StepResult` record; the revenue-estimation bookkeeping of
  lines 780-783 and the `asyncio.sleep` delays are therefore not modelled,
* python float arithmetic appears only in `estimated_revenue`
  (`target_profitability / 0.9`); it is modelled exactly over `ℚ`,
* exceptions are not modelled: the `except` blocks of lines 805-815 and
  930-932 (store unavailability, raising handlers) are unreachable in the
  embedding, in which every store operation is total.
-/

namespace WorkflowManager

/-- Result payload returned by a step handler (spec §4.2 `StepResult`).
`executed`/`step_type` are the fields of the default result built for an
unregistered step type at server.py line 767; `error` is the failure reason
of the fallible handlers (e.g. line 707). -/
structure StepResult where
  success : Bool
  executed : Bool := false
  step_type : Option String := none
  error : Option String := none
deriving DecidableEq

/-- One workflow step: a `type` tag selecting the handler and opaque
metadata (`name`), per server.py lines 717-719. -/
structure Step where
  type : String
  name : String := ""
deriving DecidableEq

/-- Entry appended to `agent_logs_collection`.  `action` keeps only the
leading tag of the python action string ("🚀 EXECUTING: ..." becomes
"EXECUTING", and so on); the remaining payload fields are dropped. -/
structure LogEntry where
  action : String
  workflow_id : Option String := none
  step_index : Option Nat := none
deriving DecidableEq

/-- A workflow record as created by `create_workflow` (server.py lines
972-990) and mutated by the scheduler. `results` maps a step index to the
payload stored under `results.step_{i}`. -/
structure Workflow where
  id : String
  name : String := ""
  description : String := ""
  type : String := ""
  category : String := "general"
  steps : List Step
  status : String
  priority : Int
  target_profitability : Rat := 0
  actual_profitability : Rat := 0
  created_at : Nat := 0
  started_at : Option Nat := none
  completed_at : Option Nat := none
  progress : Nat := 0
  current_step : Nat := 0
  results : List (Nat × StepResult) := []
  estimated_revenue : Rat := 0
deriving DecidableEq

/-- The module-level `agent_state` dict (server.py lines 121-130);
`total_profit_today` is omitted (never touched by the engine). -/
structure AgentState where
  status : String
  current_task : Option String := none
  active_workflows : Nat := 0
  completed_today : Nat := 0
  decisions_made : Nat := 0
  last_activity : Nat := 0
deriving DecidableEq

/-- Whole scheduler state: the workflow store, the agent snapshot, the log
sink and the tick clock. -/
structure SchedState where
  workflows : List Workflow
  agent : AgentState
  logs : List LogEntry := []
  now : Nat := 0
deriving DecidableEq

/-- The pydantic request model `WorkflowCreate` (server.py lines 66-72). -/
structure WorkflowCreate where
  name : String
  description : String := ""
  type : String
  steps : List Step
  priority : Int := 1
  target_profitability : Rat := 0
deriving DecidableEq

/-- Store lookup `workflows_collection.find_one({"id": wid})`. -/
def findWorkflow (ws : List Workflow) (wid : String) : Option Workflow :=
  ws.find? (fun w => w.id == wid)

/-- Store update `update_one({"id": wid}, {"$set": ...})`: rewrite every
record carrying `wid` (ids are unique in practice, so at most one). -/
def updateWorkflow (ws : List Workflow) (wid : String) (f : Workflow → Workflow) :
    List Workflow :=
  ws.map (fun w => if w.id = wid then f w else w)

/-- The step types carrying a registered handler branch in the dispatch
chain of `execute_workflow_step` (server.py lines 733-765). -/
def knownHandlerTypes : List String :=
  ["market_research", "template_creation", "listing_creation",
   "design_planning", "quality_check"]

/-- Dispatch chain of `execute_workflow_step` (server.py lines 733-768):
the three fallible handlers are the parameter `hr`; `design_planning` and
`quality_check` return inline success payloads (abstracted to a bare
success); any other type falls to the default of line 767, a trivial
success tagged with the unrecognized type. -/
def dispatchStep (hr : Step → StepResult) (step : Step) : StepResult :=
  if step.type = "market_research" then hr step
  else if step.type = "template_creation" then hr step
  else if step.type = "listing_creation" then hr step
  else if step.type = "design_planning" then { success := true }
  else if step.type = "quality_check" then { success := true }
  else { success := true, executed := true, step_type := some step.type }

/-- Write of `results.step_{i}` by Mongo `$set`: replaces any previous
entry for index `i`. -/
def setStepResult (results : List (Nat × StepResult)) (i : Nat) (r : StepResult) :
    List (Nat × StepResult) :=
  results.filter (fun p => p.1 ≠ i) ++ [(i, r)]

/-- Field update applied to the stored record by `execute_workflow_step`
(server.py lines 770-788): `current_step := i+1`, `progress` truncated as
`int(((i+1)/len)*100)` (here natural-number division), and the result
stored under `results.step_{i}`. -/
def stepAdvance (hr : Step → StepResult) (step : Step) (len i : Nat)
    (x : Workflow) : Workflow :=
  { x with
    current_step := i + 1,
    progress := ((i + 1) * 100) / len,
    results := setStepResult x.results i (dispatchStep hr step) }

/-- Translation of `execute_workflow_step` (server.py lines 710-803):
returns the updated store, the log entries appended during the call, and
the boolean return value.  Returns `false` (store untouched, nothing
logged) when the workflow is missing or `step_index` is out of bounds
(line 714); otherwise logs EXECUTING, dispatches, writes the update of
lines 770-788 back, and logs COMPLETED only when the result reports
success (line 791). -/
def execute_workflow_step (hr : Step → StepResult) (ws : List Workflow)
    (workflow_id : String) (step_index : Nat) :
    List Workflow × List LogEntry × Bool :=
  match findWorkflow ws workflow_id with
  | none => (ws, [], false)
  | some w =>
    match w.steps[step_index]? with
    | none => (ws, [], false)
    | some step =>
      let execLog : LogEntry :=
        { action := "EXECUTING", workflow_id := some workflow_id,
          step_index := some step_index }
      let result := dispatchStep hr step
      let ws1 := updateWorkflow ws workflow_id
        (stepAdvance hr step w.steps.length step_index)
      let logs :=
        if result.success then
          [execLog,
           { action := "COMPLETED", workflow_id := some workflow_id,
             step_index := some step_index }]
        else [execLog]
      (ws1, logs, true)

/-- Advancement loop of the decision engine (server.py lines 852-884):
iterates over the snapshot of running workflows, dispatching one step for
each workflow whose `current_step` is still in range, and marking the
workflow completed when the snapshot's `current_step + 1` reaches the step
count.  The store, agent state and appended logs are threaded through. -/
def advanceLoop (hr : Step → StepResult) (now : Nat) :
    List Workflow → List Workflow × AgentState × List LogEntry →
    List Workflow × AgentState × List LogEntry
  | [], acc => acc
  | w :: rest, (ws, ag, logs) =>
    if w.current_step < w.steps.length then
      let ag0 := { ag with status := "executing",
                           current_task := some ("Working on " ++ w.name) }
      let ex := execute_workflow_step hr ws w.id w.current_step
      if ex.2.2 then
        let ag1 := { ag0 with decisions_made := ag0.decisions_made + 1 }
        if w.steps.length ≤ w.current_step + 1 then
          let ws2 := updateWorkflow ex.1 w.id (fun x =>
            { x with status := "completed", completed_at := some now,
                     progress := 100 })
          let ag2 := { ag1 with completed_today := ag1.completed_today + 1 }
          let logs2 := logs ++ ex.2.1 ++
            (if w.category = "digital_templates" then
              [{ action := "REVENUE_COMPLETED", workflow_id := some w.id }]
            else [])
          advanceLoop hr now rest (ws2, ag2, logs2)
        else
          advanceLoop hr now rest (ex.1, ag1, logs ++ ex.2.1)
      else
        advanceLoop hr now rest (ex.1, ag0, logs ++ ex.2.1)
    else
      advanceLoop hr now rest (ws, ag, logs)

/-- Pending snapshot of server.py line 847: status `pending`, sorted by
`(priority, -1), (estimated_revenue, -1)`.  The sort order: higher
priority first, ties broken by higher `estimated_revenue`. -/
def pendOrder (a b : Workflow) : Prop :=
  b.priority < a.priority ∨
    (a.priority = b.priority ∧ b.estimated_revenue ≤ a.estimated_revenue)

instance : DecidableRel pendOrder := fun a b => by
  unfold pendOrder; infer_instance

instance : IsTotal Workflow pendOrder where
  total a b := by
    unfold pendOrder
    rcases lt_trichotomy a.priority b.priority with h | h | h
    · exact Or.inr (Or.inl h)
    · rcases le_total b.estimated_revenue a.estimated_revenue with h2 | h2
      · exact Or.inl (Or.inr ⟨h, h2⟩)
      · exact Or.inr (Or.inr ⟨h.symm, h2⟩)
    · exact Or.inl (Or.inl h)

instance : IsTrans Workflow pendOrder where
  trans a b c hab hbc := by
    unfold pendOrder at *
    rcases hab with h1 | ⟨h1, h1r⟩ <;> rcases hbc with h2 | ⟨h2, h2r⟩
    · exact Or.inl (h2.trans h1)
    · exact Or.inl (h2 ▸ h1)
    · exact Or.inl (h1 ▸ h2)
    · exact Or.inr ⟨h1.trans h2, h2r.trans h1r⟩

/-- The sorted pending snapshot (server.py line 847). -/
def pendingSorted (s : SchedState) : List Workflow :=
  ((s.workflows.filter (fun w => w.status == "pending")).insertionSort pendOrder)

/-- The running snapshot (server.py line 850). -/
def runningSnapshot (s : SchedState) : List Workflow :=
  s.workflows.filter (fun w => w.status == "running")

/-- The revenue-focused candidates of line 887: pending with priority ≥ 4. -/
def revenueList (s : SchedState) : List Workflow :=
  (pendingSorted s).filter (fun w => decide (4 ≤ w.priority))

/-- The general candidates of line 913: pending with priority < 4. -/
def otherList (s : SchedState) : List Workflow :=
  (pendingSorted s).filter (fun w => decide (w.priority < 4))

/-- Admission update of lines 890-898 / 916-924: set the workflow running
and stamp `started_at`. -/
def admitWorkflow (ws : List Workflow) (wid : String) (now : Nat) :
    List Workflow :=
  updateWorkflow ws wid (fun x =>
    { x with status := "running", started_at := some now })

/-- Admission phase of the decision engine (server.py lines 886-925):
if fewer than 2 workflows were running (snapshot) and a priority ≥ 4
pending workflow exists, admit the first such and log STARTED; otherwise
if fewer than 3 were running and some workflow is pending, admit the first
pending one of priority < 4 if any (no log in this branch).  At most one
workflow is admitted per tick. -/
def admissionPhase (s : SchedState) (ws : List Workflow) (ag : AgentState)
    (now : Nat) : List Workflow × AgentState × List LogEntry :=
  if (runningSnapshot s).length < 2 ∧ revenueList s ≠ [] then
    match (revenueList s).head? with
    | none => (ws, ag, [])
    | some w =>
      (admitWorkflow ws w.id now,
       { ag with active_workflows := ag.active_workflows + 1 },
       [{ action := "STARTED", workflow_id := some w.id }])
  else if (runningSnapshot s).length < 3 ∧ pendingSorted s ≠ [] then
    match (otherList s).head? with
    | none => (ws, ag, [])
    | some w =>
      (admitWorkflow ws w.id now,
       { ag with active_workflows := ag.active_workflows + 1 }, [])
  else (ws, ag, [])

/-- Advancement phase of one engine iteration (server.py lines 852-884):
the agent is set to "thinking" with `last_activity` refreshed (lines
822-823), then every workflow of the running snapshot is advanced. -/
def advancePhase (hr : Step → StepResult) (s : SchedState) :
    List Workflow × AgentState × List LogEntry :=
  advanceLoop hr (s.now + 1) (runningSnapshot s)
    (s.workflows,
     { s.agent with status := "thinking", last_activity := s.now + 1 },
     [])

/-- One iteration of the `while True` loop of `agent_decision_engine`
(server.py lines 820-928), skipping the hourly opportunity-creation block
of lines 826-844 (it only inserts new pending workflows built from trend
data, an external collaborator per the spec).  Strict order inside the
tick: agent set to "thinking", snapshots taken, advancement of the running
snapshot, then admission, then agent set to "idle". -/
def tick (hr : Step → StepResult) (s : SchedState) : SchedState :=
  let now := s.now + 1
  let adv := advancePhase hr s
  let post := admissionPhase s adv.1 adv.2.1 now
  { workflows := post.1,
    agent := { post.2.1 with status := "idle" },
    logs := s.logs ++ adv.2.2 ++ post.2.2,
    now := now }

/-- Iterated ticks of the decision engine. -/
def iterTick (hr : Step → StepResult) : Nat → SchedState → SchedState
  | 0, s => s
  | n + 1, s => iterTick hr n (tick hr s)

/-- Translation of the POST `/api/workflows` endpoint `create_workflow`
(server.py lines 970-993).  The uuid is the parameter `wid`.  Note: the
request's `steps` list is stored as-is, with no validation whatsoever. -/
def create_workflow (wid : String) (req : WorkflowCreate) (s : SchedState) :
    SchedState :=
  let w : Workflow :=
    { id := wid,
      name := req.name,
      description := req.description,
      type := req.type,
      category :=
        if req.type = "revenue_generation" then "digital_templates"
        else "general",
      steps := req.steps,
      status := "pending",
      priority := req.priority,
      target_profitability := req.target_profitability,
      actual_profitability := 0,
      created_at := s.now,
      started_at := none,
      completed_at := none,
      progress := 0,
      current_step := 0,
      results := [],
      estimated_revenue :=
        if req.type = "revenue_generation" then
          req.target_profitability / (9 / 10 : Rat)
        else 0 }
  { s with workflows := s.workflows ++ [w] }

/-- Number of records with status `running`, the quantity compared against
the caps at server.py lines 888 and 912. -/
def countRunning (ws : List Workflow) : Nat :=
  (ws.filter (fun w => w.status == "running")).length

/-- General concurrency cap of the decision engine, the literal `3` of
server.py line 912 (the larger of the two tier caps). -/
def GENERAL_CAP : Nat := 3

/-- Cap of the revenue tier (priority ≥ 4), the literal `2` of server.py
line 888. -/
def REVENUE_CAP : Nat := 2

/-- Effect of one tick on a single workflow record that was in the running
snapshot: dispatch the step at `current_step` if in range (lines 852-857
with the `execute_workflow_step` update of lines 770-788), then the
completion transition of lines 862-872 when the snapshot's
`current_step + 1` reaches the step count. -/
def advanceResult (hr : Step → StepResult) (now : Nat) (w : Workflow) :
    Workflow :=
  match w.steps[w.current_step]? with
  | none => w
  | some step =>
    let w1 := stepAdvance hr step w.steps.length w.current_step w
    if w.steps.length ≤ w.current_step + 1 then
      { w1 with status := "completed", completed_at := some now,
                progress := 100 }
    else w1

/-- The workflow selected by the admission phase of server.py lines
886-925, if any: the first revenue candidate when fewer than 2 were
running, else the first priority < 4 candidate when fewer than 3 were
running. -/
def admittedHead (s : SchedState) : Option Workflow :=
  if (runningSnapshot s).length < 2 ∧ revenueList s ≠ [] then
    (revenueList s).head?
  else if (runningSnapshot s).length < 3 ∧ pendingSorted s ≠ [] then
    (otherList s).head?
  else none

/-- Derived-progress invariant: `progress` of every stored workflow equals
`int(current_step / len(steps) * 100)`, i.e. truncating (natural) division
as computed at server.py line 771. -/
def progressInvariant (s : SchedState) : Prop :=
  ∀ w ∈ s.workflows, w.progress = w.current_step * 100 / w.steps.length

instance (s : SchedState) : Decidable (progressInvariant s) :=
  List.decidableBAll _ s.workflows

/-- Modelled from the spec: the spec derives `progress` as
`round(current_step / len(steps) * 100)`.  `specRound num den` rounds the
rational `num / den` to the nearest integer (half away from zero), which
agrees with python `round` away from ties. -/
def specRound (num den : Nat) : Nat :=
  (2 * num + den) / (2 * den)

/-- Modelled from the spec: the pending ordering the spec prescribes,
`(priority desc, created_at asc)`, to be compared with the source's
`pendOrder` (priority desc, estimated_revenue desc). -/
def specPendOrder (a b : Workflow) : Prop :=
  b.priority < a.priority ∨
    (a.priority = b.priority ∧ a.created_at ≤ b.created_at)

instance : DecidableRel specPendOrder := fun a b => by
  unfold specPendOrder; infer_instance

/-- Predicate for the admission statements: `w`, pending in `s`, is
switched to running by the tick. -/
def admittedInTick (hr : Step → StepResult) (s : SchedState)
    (w : Workflow) : Prop :=
  w.status = "pending" ∧
    ∃ w', findWorkflow (tick hr s).workflows w.id = some w' ∧
      w'.status = "running"

/-! ### Store lemmas -/

lemma findWorkflow_id {ws : List Workflow} {wid : String} {w : Workflow}
    (h : findWorkflow ws wid = some w) : w.id = wid := by
  have := List.find?_some h
  simpa using this

lemma findWorkflow_mem {ws : List Workflow} {wid : String} {w : Workflow}
    (h : findWorkflow ws wid = some w) : w ∈ ws :=
  List.mem_of_find?_eq_some h

lemma findWorkflow_of_mem_nodup {ws : List Workflow} {w : Workflow}
    (hmem : w ∈ ws) (hnodup : (ws.map Workflow.id).Nodup) :
    findWorkflow ws w.id = some w := by
  induction ws with
  | nil => simp at hmem
  | cons a l ih =>
    simp only [List.map_cons, List.nodup_cons] at hnodup
    rcases List.mem_cons.mp hmem with h | h
    · subst h; simp [findWorkflow]
    · have hne : (a.id == w.id) = false := by
        simp only [beq_eq_false_iff_ne, ne_eq]
        intro he
        exact hnodup.1 (he ▸ List.mem_map_of_mem Workflow.id h)
      simpa [findWorkflow, List.find?_cons, hne] using ih h hnodup.2

lemma mem_id_inj {ws : List Workflow} {w1 w2 : Workflow}
    (h1 : w1 ∈ ws) (h2 : w2 ∈ ws) (hnodup : (ws.map Workflow.id).Nodup)
    (hid : w1.id = w2.id) : w1 = w2 := by
  have e1 := findWorkflow_of_mem_nodup h1 hnodup
  have e2 := findWorkflow_of_mem_nodup h2 hnodup
  rw [hid] at e1
  rw [e1] at e2
  exact Option.some.inj e2

lemma updateWorkflow_map_id {ws : List Workflow} {wid : String}
    {f : Workflow → Workflow} (hf : ∀ x, (f x).id = x.id) :
    (updateWorkflow ws wid f).map Workflow.id = ws.map Workflow.id := by
  simp only [updateWorkflow, List.map_map]
  apply List.map_congr_left
  intro x _
  by_cases h : x.id = wid <;> simp [h, hf]

lemma updateWorkflow_eq_self {ws : List Workflow} {wid : String}
    {f : Workflow → Workflow} (h : ∀ x ∈ ws, x.id ≠ wid) :
    updateWorkflow ws wid f = ws := by
  induction ws with
  | nil => rfl
  | cons a l ih =>
    simp only [updateWorkflow, List.map_cons] at *
    rw [if_neg (h a (List.mem_cons_self a l))]
    rw [ih (fun x hx => h x (List.mem_cons_of_mem a hx))]

lemma findWorkflow_updateWorkflow {ws : List Workflow} {wid wid' : String}
    {f : Workflow → Workflow} (hf : ∀ x, (f x).id = x.id) :
    findWorkflow (updateWorkflow ws wid f) wid' =
      (findWorkflow ws wid').map (fun x => if x.id = wid then f x else x) := by
  induction ws with
  | nil => rfl
  | cons a l ih =>
    have hga : (if a.id = wid then f a else a).id = a.id := by
      by_cases h : a.id = wid <;> simp [h, hf]
    by_cases ha : a.id = wid'
    · have h1 : ((if a.id = wid then f a else a).id == wid') = true := by
        rw [hga]; simp [ha]
      have h2 : (a.id == wid') = true := by simp [ha]
      simp only [findWorkflow, updateWorkflow, List.map_cons]
      rw [List.find?_cons_of_pos (p := fun (w : Workflow) => w.id == wid') _ h1,
        List.find?_cons_of_pos (p := fun (w : Workflow) => w.id == wid') _ h2]
      rfl
    · have h1 : ((if a.id = wid then f a else a).id == wid') = false := by
        rw [hga]; simp [ha]
      have h2 : (a.id == wid') = false := by simp [ha]
      simp only [findWorkflow, updateWorkflow, List.map_cons]
      rw [List.find?_cons_of_neg (p := fun (w : Workflow) => w.id == wid') _ (by simp [h1]),
        List.find?_cons_of_neg (p := fun (w : Workflow) => w.id == wid') _ (by simp [h2])]
      exact ih

lemma findWorkflow_updateWorkflow_ne {ws : List Workflow} {wid wid' : String}
    {f : Workflow → Workflow} (hf : ∀ x, (f x).id = x.id)
    (hne : wid' ≠ wid) :
    findWorkflow (updateWorkflow ws wid f) wid' = findWorkflow ws wid' := by
  rw [findWorkflow_updateWorkflow hf]
  cases h : findWorkflow ws wid' with
  | none => rfl
  | some x =>
    have hx : x.id = wid' := findWorkflow_id h
    simp [hx, hne]

lemma findWorkflow_updateWorkflow_self {ws : List Workflow} {wid : String}
    {w : Workflow} {f : Workflow → Workflow} (hf : ∀ x, (f x).id = x.id)
    (h : findWorkflow ws wid = some w) :
    findWorkflow (updateWorkflow ws wid f) wid = some (f w) := by
  rw [findWorkflow_updateWorkflow hf, h]
  have hw : w.id = wid := findWorkflow_id h
  simp [hw]

/-! ### Counting running workflows -/

lemma countRunning_updateWorkflow_le {ws : List Workflow} {wid : String}
    {f : Workflow → Workflow}
    (hf : ∀ x, (f x).status = "running" → x.status = "running") :
    countRunning (updateWorkflow ws wid f) ≤ countRunning ws := by
  induction ws with
  | nil => simp [countRunning, updateWorkflow]
  | cons a l ih =>
    simp only [countRunning, updateWorkflow, List.map_cons, List.filter_cons] at *
    by_cases hg : ((if a.id = wid then f a else a).status == "running") = true
    · have haa : (a.status == "running") = true := by
        by_cases h : a.id = wid
        · simp only [h, if_pos] at hg
          simpa using hf a (by simpa using hg)
        · simpa [h] using hg
      simp only [hg, haa, if_pos, List.length_cons]
      omega
    · simp only [Bool.not_eq_true] at hg
      rw [if_neg (by simp [hg])]
      by_cases haa : (a.status == "running") = true
      · rw [if_pos haa]
        simp only [List.length_cons]
        omega
      · rw [if_neg haa]
        exact ih

lemma countRunning_updateWorkflow_le_succ {ws : List Workflow} {wid : String}
    {f : Workflow → Workflow}
    (hnodup : (ws.map Workflow.id).Nodup) :
    countRunning (updateWorkflow ws wid f) ≤ countRunning ws + 1 := by
  induction ws with
  | nil => simp [countRunning, updateWorkflow]
  | cons a l ih =>
    simp only [List.map_cons, List.nodup_cons] at hnodup
    simp only [countRunning, updateWorkflow, List.map_cons, List.filter_cons] at *
    by_cases h : a.id = wid
    · have hrest : updateWorkflow l wid f = l :=
        updateWorkflow_eq_self (fun x hx he => hnodup.1 (by
          rw [h, ← he]
          exact List.mem_map_of_mem Workflow.id hx))
      simp only [updateWorkflow] at hrest
      rw [if_pos h, hrest]
      by_cases hg : ((f a).status == "running") = true
      · rw [if_pos hg]
        by_cases haa : (a.status == "running") = true
        · rw [if_pos haa]; simp
        · rw [if_neg haa]; simp
      · rw [if_neg hg]
        by_cases haa : (a.status == "running") = true
        · rw [if_pos haa]; simp only [List.length_cons]; omega
        · rw [if_neg haa]; omega
    · rw [if_neg h]
      by_cases haa : (a.status == "running") = true
      · rw [if_pos haa, if_pos haa]
        simp only [List.length_cons]
        exact Nat.succ_le_succ (ih hnodup.2)
      · rw [if_neg haa, if_neg haa]
        exact ih hnodup.2

/-! ### Field lemmas for the record updates -/

lemma stepAdvance_id (hr : Step → StepResult) (step : Step) (len i : Nat)
    (x : Workflow) : (stepAdvance hr step len i x).id = x.id := rfl

lemma stepAdvance_status (hr : Step → StepResult) (step : Step) (len i : Nat)
    (x : Workflow) : (stepAdvance hr step len i x).status = x.status := rfl

/-! ### Lemmas on `execute_workflow_step` -/

lemma execute_eq_of_found {hr : Step → StepResult} {ws : List Workflow}
    {wid : String} {w : Workflow} {i : Nat} {step : Step}
    (hfind : findWorkflow ws wid = some w) (hstep : w.steps[i]? = some step) :
    execute_workflow_step hr ws wid i =
      (updateWorkflow ws wid (stepAdvance hr step w.steps.length i),
       (if (dispatchStep hr step).success then
          [{ action := "EXECUTING", workflow_id := some wid, step_index := some i },
           { action := "COMPLETED", workflow_id := some wid, step_index := some i }]
        else
          [{ action := "EXECUTING", workflow_id := some wid, step_index := some i }]),
       true) := by
  simp only [execute_workflow_step, hfind, hstep]

lemma execute_eq_skip_none {hr : Step → StepResult} {ws : List Workflow}
    {wid : String} {i : Nat} (hfind : findWorkflow ws wid = none) :
    execute_workflow_step hr ws wid i = (ws, [], false) := by
  simp only [execute_workflow_step, hfind]

lemma execute_eq_skip_oob {hr : Step → StepResult} {ws : List Workflow}
    {wid : String} {w : Workflow} {i : Nat}
    (hfind : findWorkflow ws wid = some w) (hstep : w.steps[i]? = none) :
    execute_workflow_step hr ws wid i = (ws, [], false) := by
  simp only [execute_workflow_step, hfind, hstep]

lemma execute_find_ne {hr : Step → StepResult} {ws : List Workflow}
    {wid wid' : String} {i : Nat} (hne : wid' ≠ wid) :
    findWorkflow (execute_workflow_step hr ws wid i).1 wid' =
      findWorkflow ws wid' := by
  cases hfind : findWorkflow ws wid with
  | none => rw [execute_eq_skip_none hfind]
  | some w =>
    cases hstep : w.steps[i]? with
    | none => rw [execute_eq_skip_oob hfind hstep]
    | some step =>
      rw [execute_eq_of_found hfind hstep]
      exact findWorkflow_updateWorkflow_ne (fun x => rfl) hne

lemma execute_map_id {hr : Step → StepResult} {ws : List Workflow}
    {wid : String} {i : Nat} :
    (execute_workflow_step hr ws wid i).1.map Workflow.id =
      ws.map Workflow.id := by
  cases hfind : findWorkflow ws wid with
  | none => rw [execute_eq_skip_none hfind]
  | some w =>
    cases hstep : w.steps[i]? with
    | none => rw [execute_eq_skip_oob hfind hstep]
    | some step =>
      rw [execute_eq_of_found hfind hstep]
      exact updateWorkflow_map_id (fun x => rfl)

lemma execute_countRunning_le {hr : Step → StepResult} {ws : List Workflow}
    {wid : String} {i : Nat} :
    countRunning (execute_workflow_step hr ws wid i).1 ≤ countRunning ws := by
  cases hfind : findWorkflow ws wid with
  | none => rw [execute_eq_skip_none hfind]
  | some w =>
    cases hstep : w.steps[i]? with
    | none => rw [execute_eq_skip_oob hfind hstep]
    | some step =>
      rw [execute_eq_of_found hfind hstep]
      exact countRunning_updateWorkflow_le (fun x h => h)

/-! ### Lemmas on `advanceResult` -/

lemma advanceResult_of_skip {hr : Step → StepResult} {now : Nat} {w : Workflow}
    (h : w.steps[w.current_step]? = none) : advanceResult hr now w = w := by
  rw [advanceResult, h]

lemma advanceResult_of_done {hr : Step → StepResult} {now : Nat} {w : Workflow}
    {step : Step} (hstep : w.steps[w.current_step]? = some step)
    (hdone : w.steps.length ≤ w.current_step + 1) :
    advanceResult hr now w =
      { stepAdvance hr step w.steps.length w.current_step w with
        status := "completed", completed_at := some now, progress := 100 } := by
  rw [advanceResult, hstep]
  simp only [if_pos hdone]

lemma advanceResult_of_mid {hr : Step → StepResult} {now : Nat} {w : Workflow}
    {step : Step} (hstep : w.steps[w.current_step]? = some step)
    (hmid : ¬ w.steps.length ≤ w.current_step + 1) :
    advanceResult hr now w =
      stepAdvance hr step w.steps.length w.current_step w := by
  rw [advanceResult, hstep]
  simp only [if_neg hmid]

lemma advanceResult_id (hr : Step → StepResult) (now : Nat) (w : Workflow) :
    (advanceResult hr now w).id = w.id := by
  cases hstep : w.steps[w.current_step]? with
  | none => rw [advanceResult_of_skip hstep]
  | some step =>
    by_cases hdone : w.steps.length ≤ w.current_step + 1
    · rw [advanceResult_of_done hstep hdone]; rfl
    · rw [advanceResult_of_mid hstep hdone]; rfl

/-! ### Lemmas on `advanceLoop` -/

lemma advanceLoop_cons (hr : Step → StepResult) (now : Nat) (w0 : Workflow)
    (rest : List Workflow) (ws : List Workflow) (ag : AgentState)
    (logs : List LogEntry) :
    ∃ ws1 ag1 newLogs,
      advanceLoop hr now (w0 :: rest) (ws, ag, logs) =
        advanceLoop hr now rest (ws1, ag1, logs ++ newLogs) ∧
      (∀ wid, wid ≠ w0.id → findWorkflow ws1 wid = findWorkflow ws wid) ∧
      ws1.map Workflow.id = ws.map Workflow.id ∧
      countRunning ws1 ≤ countRunning ws ∧
      (∀ e ∈ newLogs,
        e.action = "EXECUTING" ∨ e.action = "COMPLETED" ∨
          e.action = "REVENUE_COMPLETED") ∧
      ag1.active_workflows = ag.active_workflows := by
  by_cases hc : w0.current_step < w0.steps.length
  · cases hfind : findWorkflow ws w0.id with
    | none =>
      refine ⟨ws, { ag with
          status := "executing",
          current_task := some ("Working on " ++ w0.name) }, [],
        ?_, fun _ _ => rfl, rfl, le_refl _, by simp, rfl⟩
      simp [advanceLoop, hc, execute_eq_skip_none hfind]
    | some w =>
      cases hstep : w.steps[w0.current_step]? with
      | none =>
        refine ⟨ws, { ag with
            status := "executing",
            current_task := some ("Working on " ++ w0.name) }, [],
          ?_, fun _ _ => rfl, rfl, le_refl _, by simp, rfl⟩
        simp [advanceLoop, hc, execute_eq_skip_oob hfind hstep]
      | some step =>
        by_cases hdone : w0.steps.length ≤ w0.current_step + 1
        · refine ⟨updateWorkflow (updateWorkflow ws w0.id
              (stepAdvance hr step w.steps.length w0.current_step)) w0.id
              (fun x => { x with
                status := "completed",
                completed_at := some now,
                progress := 100 }),
            { ag with
              status := "executing",
              current_task := some ("Working on " ++ w0.name),
              decisions_made := ag.decisions_made + 1,
              completed_today := ag.completed_today + 1 },
            (if (dispatchStep hr step).success then
              [{ action := "EXECUTING", workflow_id := some w0.id,
                 step_index := some w0.current_step },
               { action := "COMPLETED", workflow_id := some w0.id,
                 step_index := some w0.current_step }]
             else
              [{ action := "EXECUTING", workflow_id := some w0.id,
                 step_index := some w0.current_step }]) ++
              (if w0.category = "digital_templates" then
                [{ action := "REVENUE_COMPLETED", workflow_id := some w0.id }]
               else []),
            ?_, ?_, ?_, ?_, ?_, rfl⟩
          · simp [advanceLoop, hc, execute_eq_of_found hfind hstep, hdone,
              List.append_assoc]
          · intro wid hne
            refine Eq.trans (findWorkflow_updateWorkflow_ne ?_ hne)
              (findWorkflow_updateWorkflow_ne ?_ hne) <;> exact fun x => rfl
          · refine Eq.trans (updateWorkflow_map_id ?_)
              (updateWorkflow_map_id ?_) <;> exact fun x => rfl
          · calc countRunning (updateWorkflow (updateWorkflow ws w0.id
                  (stepAdvance hr step w.steps.length w0.current_step)) w0.id
                  (fun x => { x with
                    status := "completed",
                    completed_at := some now,
                    progress := 100 })) ≤
                countRunning (updateWorkflow ws w0.id
                  (stepAdvance hr step w.steps.length w0.current_step)) :=
                  countRunning_updateWorkflow_le (fun x h => by simp at h)
              _ ≤ countRunning ws :=
                  countRunning_updateWorkflow_le (fun x h => h)
          · intro e he
            rcases List.mem_append.mp he with h | h
            · by_cases hs : (dispatchStep hr step).success
              · rw [if_pos hs] at h
                simp only [List.mem_cons, List.not_mem_nil, or_false] at h
                rcases h with h | h
                · subst h; left; rfl
                · subst h; right; left; rfl
              · rw [if_neg hs] at h
                simp only [List.mem_cons, List.not_mem_nil, or_false] at h
                subst h; left; rfl
            · by_cases hcat : w0.category = "digital_templates"
              · rw [if_pos hcat] at h
                simp only [List.mem_cons, List.not_mem_nil, or_false] at h
                subst h; right; right; rfl
              · rw [if_neg hcat] at h
                simp at h
        · refine ⟨updateWorkflow ws w0.id
              (stepAdvance hr step w.steps.length w0.current_step),
            { ag with
              status := "executing",
              current_task := some ("Working on " ++ w0.name),
              decisions_made := ag.decisions_made + 1 },
            (if (dispatchStep hr step).success then
              [{ action := "EXECUTING", workflow_id := some w0.id,
                 step_index := some w0.current_step },
               { action := "COMPLETED", workflow_id := some w0.id,
                 step_index := some w0.current_step }]
             else
              [{ action := "EXECUTING", workflow_id := some w0.id,
                 step_index := some w0.current_step }]),
            ?_, ?_, ?_, ?_, ?_, rfl⟩
          · simp [advanceLoop, hc, execute_eq_of_found hfind hstep, hdone]
          · intro wid hne
            exact findWorkflow_updateWorkflow_ne (fun x => rfl) hne
          · exact updateWorkflow_map_id (fun x => rfl)
          · exact countRunning_updateWorkflow_le (fun x h => h)
          · intro e he
            by_cases hs : (dispatchStep hr step).success
            · rw [if_pos hs] at he
              simp only [List.mem_cons, List.not_mem_nil, or_false] at he
              rcases he with h | h
              · subst h; left; rfl
              · subst h; right; left; rfl
            · rw [if_neg hs] at he
              simp only [List.mem_cons, List.not_mem_nil, or_false] at he
              subst he; left; rfl
  · refine ⟨ws, ag, [], ?_, fun _ _ => rfl, rfl, le_refl _, by simp, rfl⟩
    simp [advanceLoop, hc]

lemma advanceLoop_find_notin (hr : Step → StepResult) (now : Nat) :
    ∀ (l : List Workflow) (ws : List Workflow) (ag : AgentState)
      (logs : List LogEntry) (wid : String),
      wid ∉ l.map Workflow.id →
      findWorkflow (advanceLoop hr now l (ws, ag, logs)).1 wid =
        findWorkflow ws wid := by
  intro l
  induction l with
  | nil => intro ws ag logs wid _; rfl
  | cons w0 rest ih =>
    intro ws ag logs wid h
    simp only [List.map_cons, List.mem_cons, not_or] at h
    obtain ⟨ws1, ag1, newLogs, heq, hpres, _, _, _, _⟩ :=
      advanceLoop_cons hr now w0 rest ws ag logs
    rw [heq, ih ws1 ag1 (logs ++ newLogs) wid h.2, hpres wid h.1]

lemma advanceLoop_map_id (hr : Step → StepResult) (now : Nat) :
    ∀ (l : List Workflow) (ws : List Workflow) (ag : AgentState)
      (logs : List LogEntry),
      (advanceLoop hr now l (ws, ag, logs)).1.map Workflow.id =
        ws.map Workflow.id := by
  intro l
  induction l with
  | nil => intro ws ag logs; rfl
  | cons w0 rest ih =>
    intro ws ag logs
    obtain ⟨ws1, ag1, newLogs, heq, _, hmap, _, _, _⟩ :=
      advanceLoop_cons hr now w0 rest ws ag logs
    rw [heq, ih ws1 ag1 (logs ++ newLogs), hmap]

lemma advanceLoop_countRunning (hr : Step → StepResult) (now : Nat) :
    ∀ (l : List Workflow) (ws : List Workflow) (ag : AgentState)
      (logs : List LogEntry),
      countRunning (advanceLoop hr now l (ws, ag, logs)).1 ≤ countRunning ws := by
  intro l
  induction l with
  | nil => intro ws ag logs; exact le_refl _
  | cons w0 rest ih =>
    intro ws ag logs
    obtain ⟨ws1, ag1, newLogs, heq, _, _, hcount, _, _⟩ :=
      advanceLoop_cons hr now w0 rest ws ag logs
    rw [heq]
    exact le_trans (ih ws1 ag1 (logs ++ newLogs)) hcount

lemma advanceLoop_logs (hr : Step → StepResult) (now : Nat) :
    ∀ (l : List Workflow) (ws : List Workflow) (ag : AgentState)
      (logs : List LogEntry),
      ∃ newLogs, (advanceLoop hr now l (ws, ag, logs)).2.2 = logs ++ newLogs ∧
        ∀ e ∈ newLogs,
          e.action = "EXECUTING" ∨ e.action = "COMPLETED" ∨
            e.action = "REVENUE_COMPLETED" := by
  intro l
  induction l with
  | nil => intro ws ag logs; exact ⟨[], by simp [advanceLoop], by simp⟩
  | cons w0 rest ih =>
    intro ws ag logs
    obtain ⟨ws1, ag1, newLogs, heq, _, _, _, hact, _⟩ :=
      advanceLoop_cons hr now w0 rest ws ag logs
    obtain ⟨newLogs2, heq2, hact2⟩ := ih ws1 ag1 (logs ++ newLogs)
    refine ⟨newLogs ++ newLogs2, ?_, ?_⟩
    · rw [heq, heq2, List.append_assoc]
    · intro e he
      rcases List.mem_append.mp he with h | h
      · exact hact e h
      · exact hact2 e h

lemma advanceLoop_active (hr : Step → StepResult) (now : Nat) :
    ∀ (l : List Workflow) (ws : List Workflow) (ag : AgentState)
      (logs : List LogEntry),
      (advanceLoop hr now l (ws, ag, logs)).2.1.active_workflows =
        ag.active_workflows := by
  intro l
  induction l with
  | nil => intro ws ag logs; rfl
  | cons w0 rest ih =>
    intro ws ag logs
    obtain ⟨ws1, ag1, newLogs, heq, _, _, _, _, hag⟩ :=
      advanceLoop_cons hr now w0 rest ws ag logs
    rw [heq, ih ws1 ag1 (logs ++ newLogs), hag]

lemma advanceLoop_find_self (hr : Step → StepResult) (now : Nat) :
    ∀ (l : List Workflow) (ws : List Workflow) (ag : AgentState)
      (logs : List LogEntry) (w : Workflow),
      w ∈ l → (l.map Workflow.id).Nodup →
      findWorkflow ws w.id = some w →
      findWorkflow (advanceLoop hr now l (ws, ag, logs)).1 w.id =
        some (advanceResult hr now w) := by
  intro l
  induction l with
  | nil => intro ws ag logs w hmem; simp at hmem
  | cons w0 rest ih =>
    intro ws ag logs w hmem hnodup hfind
    simp only [List.map_cons, List.nodup_cons] at hnodup
    rcases List.mem_cons.mp hmem with rfl | hmem'
    · have hnotin : w.id ∉ rest.map Workflow.id := hnodup.1
      by_cases hc : w.current_step < w.steps.length
      · have hstep : w.steps[w.current_step]? = some (w.steps[w.current_step]) :=
          List.getElem?_eq_getElem hc
        by_cases hdone : w.steps.length ≤ w.current_step + 1
        · have h1 := findWorkflow_updateWorkflow_self
            (f := stepAdvance hr (w.steps[w.current_step]) w.steps.length
              w.current_step) (fun x => rfl) hfind
          have h2 := findWorkflow_updateWorkflow_self
            (f := fun x => { x with
              status := "completed",
              completed_at := some now,
              progress := 100 }) (fun x => rfl) h1
          simp only [advanceLoop, if_pos hc, execute_eq_of_found hfind hstep,
            if_true, eq_self_iff_true]
          simp only [if_pos hdone]
          rw [advanceLoop_find_notin hr now rest _ _ _ _ hnotin, h2,
            advanceResult_of_done hstep hdone]
        · have h1 := findWorkflow_updateWorkflow_self
            (f := stepAdvance hr (w.steps[w.current_step]) w.steps.length
              w.current_step) (fun x => rfl) hfind
          simp only [advanceLoop, if_pos hc, execute_eq_of_found hfind hstep,
            if_true, eq_self_iff_true]
          simp only [if_neg hdone]
          rw [advanceLoop_find_notin hr now rest _ _ _ _ hnotin, h1,
            advanceResult_of_mid hstep hdone]
      · simp only [advanceLoop, if_neg hc]
        rw [advanceLoop_find_notin hr now rest _ _ _ _ hnotin, hfind,
          advanceResult_of_skip (List.getElem?_eq_none (le_of_not_lt hc))]
    · have hne : w.id ≠ w0.id := fun he =>
        hnodup.1 (he ▸ List.mem_map_of_mem Workflow.id hmem')
      obtain ⟨ws1, ag1, newLogs, heq, hpres, _, _, _, _⟩ :=
        advanceLoop_cons hr now w0 rest ws ag logs
      rw [heq]
      refine ih ws1 ag1 (logs ++ newLogs) w hmem' hnodup.2 ?_
      rw [hpres w.id hne]
      exact hfind

/-! ### Lemmas on the snapshots and the admission phase -/

lemma head?_mem {α : Type} {l : List α} {a : α} (h : l.head? = some a) :
    a ∈ l := by
  cases l with
  | nil => simp at h
  | cons b t =>
    simp only [List.head?_cons, Option.some.injEq] at h
    rw [← h]
    exact List.mem_cons_self b t

lemma mem_pendingSorted {s : SchedState} {x : Workflow} :
    x ∈ pendingSorted s ↔ x ∈ s.workflows ∧ x.status = "pending" := by
  unfold pendingSorted
  rw [(List.perm_insertionSort pendOrder _).mem_iff, List.mem_filter]
  simp

lemma mem_runningSnapshot {s : SchedState} {x : Workflow} :
    x ∈ runningSnapshot s ↔ x ∈ s.workflows ∧ x.status = "running" := by
  unfold runningSnapshot
  rw [List.mem_filter]
  simp

lemma mem_revenueList {s : SchedState} {x : Workflow} :
    x ∈ revenueList s ↔
      (x ∈ s.workflows ∧ x.status = "pending") ∧ 4 ≤ x.priority := by
  unfold revenueList
  rw [List.mem_filter, mem_pendingSorted]
  simp

lemma mem_otherList {s : SchedState} {x : Workflow} :
    x ∈ otherList s ↔
      (x ∈ s.workflows ∧ x.status = "pending") ∧ x.priority < 4 := by
  unfold otherList
  rw [List.mem_filter, mem_pendingSorted]
  simp

lemma runningSnapshot_length {s : SchedState} :
    (runningSnapshot s).length = countRunning s.workflows := rfl

lemma admittedHead_cases {s : SchedState} {a : Workflow}
    (h : admittedHead s = some a) :
    ((runningSnapshot s).length < 2 ∧ (revenueList s).head? = some a) ∨
    (¬ ((runningSnapshot s).length < 2 ∧ revenueList s ≠ []) ∧
      (runningSnapshot s).length < 3 ∧ (otherList s).head? = some a) := by
  unfold admittedHead at h
  split at h
  next hcond => exact Or.inl ⟨hcond.1, h⟩
  next hcond =>
    split at h
    next hcond2 => exact Or.inr ⟨hcond, hcond2.1, h⟩
    next => simp at h

lemma admittedHead_pending {s : SchedState} {a : Workflow}
    (h : admittedHead s = some a) :
    a ∈ s.workflows ∧ a.status = "pending" := by
  rcases admittedHead_cases h with ⟨_, hh⟩ | ⟨_, _, hh⟩
  · exact (mem_revenueList.mp (head?_mem hh)).1
  · exact (mem_otherList.mp (head?_mem hh)).1

lemma admissionPhase_fst (s : SchedState) (ws : List Workflow)
    (ag : AgentState) (now : Nat) :
    (admissionPhase s ws ag now).1 =
      match admittedHead s with
      | none => ws
      | some a => admitWorkflow ws a.id now := by
  by_cases h1 : (runningSnapshot s).length < 2 ∧ revenueList s ≠ []
  · simp only [admissionPhase, admittedHead, if_pos h1]
    cases h : (revenueList s).head? <;> simp [h]
  · by_cases h2 : (runningSnapshot s).length < 3 ∧ pendingSorted s ≠ []
    · simp only [admissionPhase, admittedHead, if_neg h1, if_pos h2]
      cases h : (otherList s).head? <;> simp [h]
    · simp only [admissionPhase, admittedHead, if_neg h1, if_neg h2]

lemma admissionPhase_fst_none {s : SchedState} {ws : List Workflow}
    {ag : AgentState} {now : Nat} (h : admittedHead s = none) :
    (admissionPhase s ws ag now).1 = ws := by
  rw [admissionPhase_fst, h]

lemma admissionPhase_fst_some {s : SchedState} {ws : List Workflow}
    {ag : AgentState} {now : Nat} {a : Workflow}
    (h : admittedHead s = some a) :
    (admissionPhase s ws ag now).1 = admitWorkflow ws a.id now := by
  rw [admissionPhase_fst, h]

lemma admissionPhase_active (s : SchedState) (ws : List Workflow)
    (ag : AgentState) (now : Nat) :
    (admissionPhase s ws ag now).2.1.active_workflows =
      ag.active_workflows + (if (admittedHead s).isSome then 1 else 0) := by
  by_cases h1 : (runningSnapshot s).length < 2 ∧ revenueList s ≠ []
  · simp only [admissionPhase, admittedHead, if_pos h1]
    cases h : (revenueList s).head? <;> simp [h]
  · by_cases h2 : (runningSnapshot s).length < 3 ∧ pendingSorted s ≠ []
    · simp only [admissionPhase, admittedHead, if_neg h1, if_pos h2]
      cases h : (otherList s).head? <;> simp [h]
    · simp only [admissionPhase, admittedHead, if_neg h1, if_neg h2]
      simp

lemma admissionPhase_logs (s : SchedState) (ws : List Workflow)
    (ag : AgentState) (now : Nat) :
    ∀ e ∈ (admissionPhase s ws ag now).2.2, e.action = "STARTED" := by
  intro e he
  by_cases h1 : (runningSnapshot s).length < 2 ∧ revenueList s ≠ []
  · simp only [admissionPhase, if_pos h1] at he
    cases h : (revenueList s).head? with
    | none => rw [h] at he; simp at he
    | some a =>
      rw [h] at he
      simp only [List.mem_cons, List.not_mem_nil, or_false] at he
      subst he; rfl
  · by_cases h2 : (runningSnapshot s).length < 3 ∧ pendingSorted s ≠ []
    · simp only [admissionPhase, if_neg h1, if_pos h2] at he
      cases h : (otherList s).head? with
      | none => rw [h] at he; simp at he
      | some a => rw [h] at he; simp at he
    · simp only [admissionPhase, if_neg h1, if_neg h2] at he
      simp at he

lemma admissionPhase_find_ne {s : SchedState} {ws : List Workflow}
    {ag : AgentState} {now : Nat} {wid : String}
    (hne : ∀ a, admittedHead s = some a → a.id ≠ wid) :
    findWorkflow (admissionPhase s ws ag now).1 wid = findWorkflow ws wid := by
  cases h : admittedHead s with
  | none => rw [admissionPhase_fst_none h]
  | some a =>
    rw [admissionPhase_fst_some h]
    unfold admitWorkflow
    exact findWorkflow_updateWorkflow_ne (fun x => rfl)
      (fun he => hne a h he.symm)

lemma admissionPhase_find_self {s : SchedState} {ws : List Workflow}
    {ag : AgentState} {now : Nat} {a w : Workflow}
    (h : admittedHead s = some a) (hid : a.id = w.id)
    (hfind : findWorkflow ws w.id = some w) :
    findWorkflow (admissionPhase s ws ag now).1 w.id =
      some { w with status := "running", started_at := some now } := by
  rw [admissionPhase_fst_some h]
  unfold admitWorkflow
  rw [hid]
  exact findWorkflow_updateWorkflow_self (fun x => rfl) hfind

/-! ### Lemmas on `advancePhase` and `tick` -/

lemma runningSnapshot_nodup {s : SchedState}
    (hnodup : (s.workflows.map Workflow.id).Nodup) :
    ((runningSnapshot s).map Workflow.id).Nodup :=
  hnodup.sublist (List.Sublist.map Workflow.id
    (List.filter_sublist s.workflows))

lemma advancePhase_find_running {hr : Step → StepResult} {s : SchedState}
    {w : Workflow} (hmem : w ∈ s.workflows)
    (hnodup : (s.workflows.map Workflow.id).Nodup)
    (hstat : w.status = "running") :
    findWorkflow (advancePhase hr s).1 w.id =
      some (advanceResult hr (s.now + 1) w) :=
  advanceLoop_find_self hr (s.now + 1) (runningSnapshot s) s.workflows _ _ w
    (mem_runningSnapshot.mpr ⟨hmem, hstat⟩) (runningSnapshot_nodup hnodup)
    (findWorkflow_of_mem_nodup hmem hnodup)

lemma advancePhase_find_notrunning {hr : Step → StepResult} {s : SchedState}
    {w : Workflow} (hmem : w ∈ s.workflows)
    (hnodup : (s.workflows.map Workflow.id).Nodup)
    (hstat : w.status ≠ "running") :
    findWorkflow (advancePhase hr s).1 w.id =
      findWorkflow s.workflows w.id := by
  apply advanceLoop_find_notin
  intro h
  obtain ⟨x, hx, hxid⟩ := List.mem_map.mp h
  obtain ⟨hxmem, hxstat⟩ := mem_runningSnapshot.mp hx
  exact hstat ((mem_id_inj hxmem hmem hnodup hxid) ▸ hxstat)

lemma advancePhase_map_id {hr : Step → StepResult} {s : SchedState} :
    (advancePhase hr s).1.map Workflow.id = s.workflows.map Workflow.id :=
  advanceLoop_map_id hr (s.now + 1) (runningSnapshot s) s.workflows _ _

lemma advancePhase_countRunning (hr : Step → StepResult) (s : SchedState) :
    countRunning (advancePhase hr s).1 ≤ countRunning s.workflows :=
  advanceLoop_countRunning hr (s.now + 1) (runningSnapshot s) s.workflows _ _

lemma advancePhase_active {hr : Step → StepResult} {s : SchedState} :
    (advancePhase hr s).2.1.active_workflows = s.agent.active_workflows :=
  advanceLoop_active hr (s.now + 1) (runningSnapshot s) s.workflows _ _

lemma tick_workflows (hr : Step → StepResult) (s : SchedState) :
    (tick hr s).workflows =
      (admissionPhase s (advancePhase hr s).1 (advancePhase hr s).2.1
        (s.now + 1)).1 := rfl

lemma tick_now (hr : Step → StepResult) (s : SchedState) :
    (tick hr s).now = s.now + 1 := rfl

lemma tick_map_id (hr : Step → StepResult) (s : SchedState) :
    (tick hr s).workflows.map Workflow.id = s.workflows.map Workflow.id := by
  rw [tick_workflows]
  cases h : admittedHead s with
  | none =>
    rw [admissionPhase_fst_none h]
    exact advancePhase_map_id
  | some a =>
    rw [admissionPhase_fst_some h]
    unfold admitWorkflow
    refine Eq.trans (updateWorkflow_map_id ?_) advancePhase_map_id
    exact fun x => rfl

lemma tick_find_running (hr : Step → StepResult) {s : SchedState}
    {w : Workflow} (hmem : w ∈ s.workflows)
    (hnodup : (s.workflows.map Workflow.id).Nodup)
    (hstat : w.status = "running") :
    findWorkflow (tick hr s).workflows w.id =
      some (advanceResult hr (s.now + 1) w) := by
  rw [tick_workflows]
  rw [admissionPhase_find_ne]
  · exact advancePhase_find_running hmem hnodup hstat
  · intro a ha hid
    obtain ⟨hamem, hastat⟩ := admittedHead_pending ha
    have : a = w := mem_id_inj hamem hmem hnodup hid
    rw [this, hstat] at hastat
    exact absurd hastat (by decide)

lemma tick_find_pending (hr : Step → StepResult) {s : SchedState}
    {w : Workflow} (hmem : w ∈ s.workflows)
    (hnodup : (s.workflows.map Workflow.id).Nodup)
    (hstat : w.status = "pending") :
    (admittedHead s = some w ∧
      findWorkflow (tick hr s).workflows w.id =
        some { w with status := "running", started_at := some (s.now + 1) }) ∨
    (admittedHead s ≠ some w ∧
      findWorkflow (tick hr s).workflows w.id = some w) := by
  have hpres : findWorkflow (advancePhase hr s).1 w.id = some w := by
    rw [advancePhase_find_notrunning hmem hnodup (by rw [hstat]; decide)]
    exact findWorkflow_of_mem_nodup hmem hnodup
  rw [tick_workflows]
  cases h : admittedHead s with
  | none =>
    right
    refine ⟨by simp [h], ?_⟩
    rw [admissionPhase_find_ne (fun a ha => by rw [h] at ha; simp at ha)]
    exact hpres
  | some a =>
    by_cases haw : a = w
    · left
      subst haw
      exact ⟨rfl, admissionPhase_find_self h rfl hpres⟩
    · right
      refine ⟨by simp [haw], ?_⟩
      rw [admissionPhase_find_ne]
      · exact hpres
      · intro b hb hid
        rw [h] at hb
        have hba : b = a := by simpa using hb.symm
        subst hba
        obtain ⟨hamem, _⟩ := admittedHead_pending h
        exact haw (mem_id_inj hamem hmem hnodup hid)

lemma tick_find_untouched {hr : Step → StepResult} {s : SchedState}
    {w : Workflow} (hmem : w ∈ s.workflows)
    (hnodup : (s.workflows.map Workflow.id).Nodup)
    (h1 : w.status ≠ "running") (h2 : w.status ≠ "pending") :
    findWorkflow (tick hr s).workflows w.id = some w := by
  rw [tick_workflows]
  rw [admissionPhase_find_ne]
  · rw [advancePhase_find_notrunning hmem hnodup h1]
    exact findWorkflow_of_mem_nodup hmem hnodup
  · intro a ha hid
    obtain ⟨hamem, hastat⟩ := admittedHead_pending ha
    exact h2 ((mem_id_inj hamem hmem hnodup hid) ▸ hastat)

lemma tick_find_cases (hr : Step → StepResult) {s : SchedState} {w : Workflow}
    (hmem : w ∈ s.workflows)
    (hnodup : (s.workflows.map Workflow.id).Nodup) :
    findWorkflow (tick hr s).workflows w.id = some w ∨
    findWorkflow (tick hr s).workflows w.id =
      some (advanceResult hr (s.now + 1) w) ∨
    findWorkflow (tick hr s).workflows w.id =
      some { w with status := "running", started_at := some (s.now + 1) } := by
  by_cases h1 : w.status = "running"
  · exact Or.inr (Or.inl (tick_find_running hr hmem hnodup h1))
  · by_cases h2 : w.status = "pending"
    · rcases tick_find_pending hr hmem hnodup h2 with ⟨_, hf⟩ | ⟨_, hf⟩
      · exact Or.inr (Or.inr hf)
      · exact Or.inl hf
    · exact Or.inl (tick_find_untouched hmem hnodup h1 h2)

lemma tick_mem_cases {hr : Step → StepResult} {s : SchedState} {w' : Workflow}
    (hnodup : (s.workflows.map Workflow.id).Nodup)
    (hmem' : w' ∈ (tick hr s).workflows) :
    ∃ w ∈ s.workflows, w' = w ∨ w' = advanceResult hr (s.now + 1) w ∨
      w' = { w with status := "running", started_at := some (s.now + 1) } := by
  have hnodup' : ((tick hr s).workflows.map Workflow.id).Nodup := by
    rw [tick_map_id]; exact hnodup
  have hfind' : findWorkflow (tick hr s).workflows w'.id = some w' :=
    findWorkflow_of_mem_nodup hmem' hnodup'
  have hidmem : w'.id ∈ s.workflows.map Workflow.id := by
    rw [← tick_map_id hr s]
    exact List.mem_map_of_mem Workflow.id hmem'
  obtain ⟨w, hw, hwid⟩ := List.mem_map.mp hidmem
  refine ⟨w, hw, ?_⟩
  have hfind2 : findWorkflow (tick hr s).workflows w.id = some w' := by
    rw [hwid]; exact hfind'
  rcases tick_find_cases hr hw hnodup with hf | hf | hf <;>
    rw [hfind2] at hf
  · exact Or.inl (Option.some.inj hf)
  · exact Or.inr (Or.inl (Option.some.inj hf))
  · exact Or.inr (Or.inr (Option.some.inj hf))

lemma tick_agent (hr : Step → StepResult) (s : SchedState) :
    (tick hr s).agent =
      { (admissionPhase s (advancePhase hr s).1 (advancePhase hr s).2.1
          (s.now + 1)).2.1 with status := "idle" } := rfl

lemma tick_active (hr : Step → StepResult) (s : SchedState) :
    (tick hr s).agent.active_workflows =
      s.agent.active_workflows +
        (if (admittedHead s).isSome then 1 else 0) := by
  rw [tick_agent]
  show (admissionPhase s (advancePhase hr s).1 (advancePhase hr s).2.1
      (s.now + 1)).2.1.active_workflows = _
  rw [admissionPhase_active, advancePhase_active]

lemma tick_logs (hr : Step → StepResult) (s : SchedState) :
    (tick hr s).logs =
      s.logs ++ (advancePhase hr s).2.2 ++
        (admissionPhase s (advancePhase hr s).1 (advancePhase hr s).2.1
          (s.now + 1)).2.2 := rfl

lemma tick_logs_split (hr : Step → StepResult) (s : SchedState) :
    ∃ newLogs, (tick hr s).logs = s.logs ++ newLogs ∧
      ∀ e ∈ newLogs,
        e.action = "EXECUTING" ∨ e.action = "COMPLETED" ∨
          e.action = "REVENUE_COMPLETED" ∨ e.action = "STARTED" := by
  obtain ⟨advLogs, hadv, hact⟩ :=
    advanceLoop_logs hr (s.now + 1) (runningSnapshot s) s.workflows
      { s.agent with status := "thinking", last_activity := s.now + 1 } []
  refine ⟨advLogs ++ (admissionPhase s (advancePhase hr s).1
      (advancePhase hr s).2.1 (s.now + 1)).2.2, ?_, ?_⟩
  · rw [tick_logs]
    have : (advancePhase hr s).2.2 = advLogs := by
      rw [advancePhase]
      rw [hadv]
      simp
    rw [this, List.append_assoc]
  · intro e he
    rcases List.mem_append.mp he with h | h
    · rcases hact e h with h1 | h1 | h1
      · exact Or.inl h1
      · exact Or.inr (Or.inl h1)
      · exact Or.inr (Or.inr (Or.inl h1))
    · exact Or.inr (Or.inr (Or.inr (admissionPhase_logs _ _ _ _ e h)))

/-! ### Counting lemmas at the tick level -/

lemma tick_countRunning {hr : Step → StepResult} {s : SchedState}
    (hnodup : (s.workflows.map Workflow.id).Nodup)
    (hcap : countRunning s.workflows ≤ 3) :
    countRunning (tick hr s).workflows ≤ 3 := by
  rw [tick_workflows]
  cases h : admittedHead s with
  | none =>
    rw [admissionPhase_fst_none h]
    exact le_trans (advancePhase_countRunning hr s) hcap
  | some a =>
    rw [admissionPhase_fst_some h]
    unfold admitWorkflow
    have hnodup2 : ((advancePhase hr s).1.map Workflow.id).Nodup := by
      rw [advancePhase_map_id]; exact hnodup
    refine le_trans (countRunning_updateWorkflow_le_succ hnodup2) ?_
    have hadv := advancePhase_countRunning hr s
    rcases admittedHead_cases h with ⟨hlt, _⟩ | ⟨_, hlt, _⟩
    · rw [runningSnapshot_length] at hlt
      omega
    · rw [runningSnapshot_length] at hlt
      omega

lemma admittedHead_priority_of_ge2 {s : SchedState} {a : Workflow}
    (hge : 2 ≤ countRunning s.workflows) (h : admittedHead s = some a) :
    a.priority < 4 := by
  rcases admittedHead_cases h with ⟨hlt, _⟩ | ⟨_, _, hh⟩
  · rw [runningSnapshot_length] at hlt
    omega
  · exact (mem_otherList.mp (head?_mem hh)).2

lemma admittedHead_none_of_ge3 {s : SchedState}
    (hge : 3 ≤ countRunning s.workflows) : admittedHead s = none := by
  have h1 : ¬ ((runningSnapshot s).length < 2 ∧ revenueList s ≠ []) := by
    intro hc
    have := hc.1
    rw [runningSnapshot_length] at this
    omega
  have h2 : ¬ ((runningSnapshot s).length < 3 ∧ pendingSorted s ≠ []) := by
    intro hc
    have := hc.1
    rw [runningSnapshot_length] at this
    omega
  simp only [admittedHead, if_neg h1, if_neg h2]

/-! ### Admission ordering lemmas -/

lemma pendingSorted_sorted (s : SchedState) :
    List.Pairwise pendOrder (pendingSorted s) :=
  List.sorted_insertionSort pendOrder _

lemma revenueList_sorted (s : SchedState) :
    List.Pairwise pendOrder (revenueList s) :=
  (pendingSorted_sorted s).sublist (List.filter_sublist _)

lemma otherList_sorted (s : SchedState) :
    List.Pairwise pendOrder (otherList s) :=
  (pendingSorted_sorted s).sublist (List.filter_sublist _)

lemma head?_best {l : List Workflow} (hsort : List.Pairwise pendOrder l)
    {w1 w2 : Workflow} (h1 : w1 ∈ l)
    (hp : w2.priority < w1.priority) : l.head? ≠ some w2 := by
  intro hh
  cases l with
  | nil => simp at hh
  | cons b t =>
    have hb : b = w2 := by simpa using hh
    subst hb
    rcases List.mem_cons.mp h1 with h | h1t
    · rw [h] at hp
      exact absurd hp (lt_irrefl _)
    · have hpair := (List.pairwise_cons.mp hsort).1 w1 h1t
      rcases hpair with hlt | ⟨heq, _⟩
      · omega
      · omega

lemma admittedHead_ne_lower {s : SchedState} {w1 w2 : Workflow}
    (h1 : w1 ∈ s.workflows) (hs1 : w1.status = "pending")
    (hp : w2.priority < w1.priority)
    (htier : w1.priority < 4 ∨ 4 ≤ w2.priority) :
    admittedHead s ≠ some w2 := by
  intro h
  rcases admittedHead_cases h with ⟨_, hh⟩ | ⟨_, _, hh⟩
  · have hw2rev : w2 ∈ revenueList s := head?_mem hh
    have h4 : 4 ≤ w2.priority := (mem_revenueList.mp hw2rev).2
    have h41 : 4 ≤ w1.priority := le_trans h4 (le_of_lt hp)
    have hw1rev : w1 ∈ revenueList s :=
      mem_revenueList.mpr ⟨⟨h1, hs1⟩, h41⟩
    exact head?_best (revenueList_sorted s) hw1rev hp hh
  · have hw2oth : w2 ∈ otherList s := head?_mem hh
    have h4 : w2.priority < 4 := (mem_otherList.mp hw2oth).2
    rcases htier with hw1lt | hge
    · have hw1oth : w1 ∈ otherList s :=
        mem_otherList.mpr ⟨⟨h1, hs1⟩, hw1lt⟩
      exact head?_best (otherList_sorted s) hw1oth hp hh
    · omega

lemma admittedInTick_head {hr : Step → StepResult} {s : SchedState}
    {w : Workflow} (hmem : w ∈ s.workflows)
    (hnodup : (s.workflows.map Workflow.id).Nodup)
    (ha : admittedInTick hr s w) : admittedHead s = some w := by
  obtain ⟨hpend, w', hfind, hrun⟩ := ha
  rcases tick_find_pending hr hmem hnodup hpend with ⟨hh, _⟩ | ⟨_, hfind2⟩
  · exact hh
  · rw [hfind] at hfind2
    have : w' = w := Option.some.inj hfind2
    rw [this, hpend] at hrun
    exact absurd hrun (by decide)

/-! ### Iterated ticks -/

lemma iterTick_succ (hr : Step → StepResult) (n : Nat) (s : SchedState) :
    iterTick hr (n + 1) s = tick hr (iterTick hr n s) := by
  induction n generalizing s with
  | zero => rfl
  | succ n ih =>
    have h1 : iterTick hr (n + 1 + 1) s = iterTick hr (n + 1) (tick hr s) := rfl
    rw [h1, ih (tick hr s)]
    rfl

lemma iterTick_map_id (hr : Step → StepResult) (m : Nat) (s : SchedState) :
    (iterTick hr m s).workflows.map Workflow.id =
      s.workflows.map Workflow.id := by
  induction m generalizing s with
  | zero => rfl
  | succ m ih =>
    have h1 : iterTick hr (m + 1) s = iterTick hr m (tick hr s) := rfl
    rw [h1, ih (tick hr s), tick_map_id]

/-! ### Step-by-step progression of one running workflow -/

lemma run_progression (hr : Step → StepResult) {s : SchedState} {w : Workflow}
    (hmem : w ∈ s.workflows)
    (hnodup : (s.workflows.map Workflow.id).Nodup)
    (hstat : w.status = "running") (hcs : w.current_step = 0) :
    ∀ m, m ≤ w.steps.length →
      ∃ w', findWorkflow (iterTick hr m s).workflows w.id = some w' ∧
        w' ∈ (iterTick hr m s).workflows ∧
        w'.id = w.id ∧ w'.steps = w.steps ∧ w'.current_step = m ∧
        (m < w.steps.length → w'.status = "running") ∧
        (m = w.steps.length → 1 ≤ m →
          w'.status = "completed" ∧ w'.progress = 100 ∧
            w'.completed_at.isSome) := by
  intro m
  induction m with
  | zero =>
    intro _
    refine ⟨w, findWorkflow_of_mem_nodup hmem hnodup, hmem, rfl, rfl, hcs,
      fun _ => hstat, ?_⟩
    intro hmn h1
    omega
  | succ m ih =>
    intro hm
    obtain ⟨w', hfind, hmem', hid, hsteps, hcs', hrun, _⟩ :=
      ih (le_of_lt (Nat.lt_of_lt_of_le (Nat.lt_succ_self m) hm))
    have hmlt : m < w.steps.length := Nat.lt_of_lt_of_le (Nat.lt_succ_self m) hm
    have hnodup_m : ((iterTick hr m s).workflows.map Workflow.id).Nodup := by
      rw [iterTick_map_id]; exact hnodup
    have hrun' : w'.status = "running" := hrun hmlt
    have htick := tick_find_running hr hmem' hnodup_m hrun'
    have hc : w'.current_step < w'.steps.length := by
      rw [hcs', hsteps]; exact hmlt
    have hstep : w'.steps[w'.current_step]? = some (w'.steps[w'.current_step]) :=
      List.getElem?_eq_getElem hc
    rw [iterTick_succ, ← hid]
    by_cases hdone : w'.steps.length ≤ w'.current_step + 1
    · rw [advanceResult_of_done hstep hdone] at htick
      refine ⟨_, htick, findWorkflow_mem htick, rfl, hsteps, ?_, ?_, ?_⟩
      · show w'.current_step + 1 = m + 1
        rw [hcs']
      · intro hlt
        rw [hcs', hsteps] at hdone
        omega
      · intro _ _
        exact ⟨rfl, rfl, rfl⟩
    · rw [advanceResult_of_mid hstep hdone] at htick
      refine ⟨_, htick, findWorkflow_mem htick, rfl, hsteps, ?_, ?_, ?_⟩
      · show w'.current_step + 1 = m + 1
        rw [hcs']
      · intro _
        exact hrun'
      · intro heq _
        rw [hcs', hsteps] at hdone
        omega

/-! ### Workflows with an empty step list -/

lemma tick_empty_running_fixed {hr : Step → StepResult} {s : SchedState}
    {w : Workflow} (hmem : w ∈ s.workflows)
    (hnodup : (s.workflows.map Workflow.id).Nodup)
    (hstat : w.status = "running") (hempty : w.steps = []) :
    findWorkflow (tick hr s).workflows w.id = some w := by
  rw [tick_find_running hr hmem hnodup hstat,
    advanceResult_of_skip (by rw [hempty]; simp)]

lemma iter_empty_running_fixed {hr : Step → StepResult} {s : SchedState}
    {w : Workflow} (hmem : w ∈ s.workflows)
    (hnodup : (s.workflows.map Workflow.id).Nodup)
    (hstat : w.status = "running") (hempty : w.steps = []) :
    ∀ m, findWorkflow (iterTick hr m s).workflows w.id = some w := by
  intro m
  induction m generalizing s with
  | zero => exact findWorkflow_of_mem_nodup hmem hnodup
  | succ m ih =>
    have h1 : iterTick hr (m + 1) s = iterTick hr m (tick hr s) := rfl
    rw [h1]
    refine ih ?_ ?_
    · exact findWorkflow_mem (tick_empty_running_fixed hmem hnodup hstat hempty)
    · rw [tick_map_id]; exact hnodup

lemma advanceResult_progress {hr : Step → StepResult} {now : Nat}
    {w : Workflow}
    (hinv : w.progress = w.current_step * 100 / w.steps.length) :
    (advanceResult hr now w).progress =
      (advanceResult hr now w).current_step * 100 /
        (advanceResult hr now w).steps.length ∧
    w.current_step ≤ (advanceResult hr now w).current_step ∧
    w.progress ≤ (advanceResult hr now w).progress := by
  cases hstep : w.steps[w.current_step]? with
  | none =>
    rw [advanceResult_of_skip hstep]
    exact ⟨hinv, le_refl _, le_refl _⟩
  | some step =>
    have hc : w.current_step < w.steps.length := by
      by_contra hle
      rw [List.getElem?_eq_none (le_of_not_lt hle)] at hstep
      exact Option.noConfusion hstep
    by_cases hdone : w.steps.length ≤ w.current_step + 1
    · rw [advanceResult_of_done hstep hdone]
      refine ⟨?_, Nat.le_succ _, ?_⟩
      · show (100 : Nat) = (w.current_step + 1) * 100 / w.steps.length
        have hlen : w.steps.length = w.current_step + 1 := by omega
        rw [hlen, Nat.mul_div_cancel_left 100 (Nat.succ_pos _)]
      · show w.progress ≤ 100
        rw [hinv]
        calc w.current_step * 100 / w.steps.length ≤
            w.steps.length * 100 / w.steps.length :=
              Nat.div_le_div_right (by omega)
          _ = 100 := Nat.mul_div_cancel_left 100 (by omega)
    · rw [advanceResult_of_mid hstep hdone]
      refine ⟨rfl, Nat.le_succ _, ?_⟩
      show w.progress ≤ (w.current_step + 1) * 100 / w.steps.length
      rw [hinv]
      exact Nat.div_le_div_right (by omega)

/-! ### Concrete fixtures used by the claim theorems -/

/-- Handler environment in which every fallible handler succeeds. -/
def hrAllOk : Step → StepResult := fun _ => { success := true }

/-- Handler environment in which every fallible handler reports failure. -/
def hrAllFail : Step → StepResult :=
  fun _ => { success := false, error := some "boom" }

/-- A 3-step workflow admitted to running, as in the spec's §8 scenario. -/
def cw1 : Workflow :=
  { id := "w1", steps := [{ type := "a" }, { type := "b" }, { type := "c" }],
    status := "running", priority := 5 }

/-- State holding only `cw1`. -/
def c1state : SchedState :=
  { workflows := [cw1], agent := { status := "idle" } }

/-- C1.  The claim's `round` derivation fails on the code: after 2
advancing ticks of the 3-step scenario the stored progress is 66
(truncation), while round(2/3*100) = 67. -/
theorem C1_counterexample :
    (findWorkflow (iterTick hrAllOk 2 c1state).workflows "w1").map
        Workflow.progress = some 66 ∧
      specRound 200 3 = 67 ∧ (66 : Nat) ≠ 67 := by decide

/-- C1 (amended).  The derived-progress invariant with truncating
division `current_step * 100 / len(steps)` is preserved by every tick;
`current_step` and `progress` are non-decreasing across a tick; and the
3-step all-success scenario yields the progress sequence 33, 66, 100 with
final status completed. -/
theorem C1_progress_floor_and_monotone :
    (∀ (hr : Step → StepResult) (s : SchedState),
      (s.workflows.map Workflow.id).Nodup →
      progressInvariant s → progressInvariant (tick hr s)) ∧
    (∀ (hr : Step → StepResult) (s : SchedState) (w : Workflow),
      (s.workflows.map Workflow.id).Nodup → progressInvariant s →
      w ∈ s.workflows →
      ∃ w', findWorkflow (tick hr s).workflows w.id = some w' ∧
        w.current_step ≤ w'.current_step ∧ w.progress ≤ w'.progress) ∧
    ((findWorkflow (iterTick hrAllOk 1 c1state).workflows "w1").map
        Workflow.progress = some 33 ∧
      (findWorkflow (iterTick hrAllOk 2 c1state).workflows "w1").map
        Workflow.progress = some 66 ∧
      (findWorkflow (iterTick hrAllOk 3 c1state).workflows "w1").map
        (fun w => (w.progress, w.status)) = some (100, "completed")) := by
  refine ⟨?_, ?_, by decide⟩
  · intro hr s hnodup hinv w' hmem'
    obtain ⟨w, hw, hcase⟩ := tick_mem_cases hnodup hmem'
    rcases hcase with rfl | rfl | rfl
    · exact hinv _ hw
    · exact (advanceResult_progress (hinv _ hw)).1
    · exact hinv w hw
  · intro hr s w hnodup hinv hmem
    rcases tick_find_cases hr hmem hnodup with hf | hf | hf
    · exact ⟨w, hf, le_refl _, le_refl _⟩
    · exact ⟨_, hf, (advanceResult_progress (hinv w hmem)).2⟩
    · exact ⟨_, hf, le_refl _, le_refl _⟩

/-- C1 witness: the amended theorem instantiated at the concrete 3-step
state, hypotheses discharged by evaluation. -/
theorem C1_progress_floor_and_monotone_witness :
    progressInvariant (tick hrAllOk c1state) ∧
    (∃ w', findWorkflow (tick hrAllOk c1state).workflows cw1.id = some w' ∧
      cw1.current_step ≤ w'.current_step ∧ cw1.progress ≤ w'.progress) :=
  ⟨C1_progress_floor_and_monotone.1 hrAllOk c1state (by decide) (by decide),
   C1_progress_floor_and_monotone.2.1 hrAllOk c1state cw1 (by decide)
     (by decide) (by decide)⟩

lemma mem_setStepResult (rs : List (Nat × StepResult)) (i : Nat)
    (r : StepResult) : (i, r) ∈ setStepResult rs i r :=
  List.mem_append.mpr (Or.inr (List.mem_singleton.mpr rfl))

lemma tick_logs_no_failed (hr : Step → StepResult) (s : SchedState) :
    ∀ e ∈ (tick hr s).logs, e ∈ s.logs ∨ e.action ≠ "FAILED" := by
  obtain ⟨newLogs, hsplit, hact⟩ := tick_logs_split hr s
  intro e he
  rw [hsplit] at he
  rcases List.mem_append.mp he with h | h
  · exact Or.inl h
  · right
    rcases hact e h with h1 | h1 | h1 | h1 <;> rw [h1] <;> decide

/-- C2.  A running workflow with n steps (n ≥ 1) whose handlers all
succeed is completed after exactly n ticks: status `completed`, progress
100, `completed_at` set; after n-1 ticks it is still `running`. -/
theorem C2_completion (hr : Step → StepResult) (s : SchedState)
    (w : Workflow) (n : Nat)
    (hnodup : (s.workflows.map Workflow.id).Nodup)
    (hmem : w ∈ s.workflows) (hstat : w.status = "running")
    (hcs : w.current_step = 0) (hlen : w.steps.length = n) (hn : 1 ≤ n)
    (hok : ∀ st, (hr st).success = true) :
    (∃ w', findWorkflow (iterTick hr n s).workflows w.id = some w' ∧
      w'.status = "completed" ∧ w'.progress = 100 ∧
        w'.completed_at ≠ none) ∧
    (∃ w', findWorkflow (iterTick hr (n - 1) s).workflows w.id = some w' ∧
      w'.status = "running") := by
  subst hlen
  constructor
  · obtain ⟨w', hfind, _, _, _, _, _, hcompl⟩ :=
      run_progression hr hmem hnodup hstat hcs w.steps.length
        (le_refl _)
    obtain ⟨h1, h2, h3⟩ := hcompl rfl hn
    exact ⟨w', hfind, h1, h2, Option.ne_none_iff_isSome.mpr h3⟩
  · obtain ⟨w', hfind, _, _, _, _, hrun, _⟩ :=
      run_progression hr hmem hnodup hstat hcs
        (w.steps.length - 1) (Nat.sub_le _ _)
    exact ⟨w', hfind, hrun (by omega)⟩

/-- C2 witness: the 3-step all-success scenario completes after exactly
3 ticks. -/
theorem C2_completion_witness :
    (∃ w', findWorkflow (iterTick hrAllOk 3 c1state).workflows cw1.id =
        some w' ∧ w'.status = "completed" ∧ w'.progress = 100 ∧
        w'.completed_at ≠ none) ∧
    (∃ w', findWorkflow (iterTick hrAllOk (3 - 1) c1state).workflows
        cw1.id = some w' ∧ w'.status = "running") :=
  C2_completion hrAllOk c1state cw1 3 (by decide) (by decide) (by decide)
    (by decide) (by decide) (by decide) (fun _ => rfl)

/-- A 2-step workflow whose first step is the fallible
`market_research` handler, used for the failure claims. -/
def cwf : Workflow :=
  { id := "wf", steps := [{ type := "market_research" }, { type := "b" }],
    status := "running", priority := 1 }

/-- State holding only `cwf`. -/
def c3state : SchedState :=
  { workflows := [cwf], agent := { status := "idle" } }

/-- C3.  The claim that a `success:false` result is "recorded in the log
sink" fails on the code: the tick that consumes the failing step appends
exactly one EXECUTING entry and nothing that records the failure (the
FAILED log of server.py line 810 is only reachable from the `except`
block, i.e. when a handler raises, not when it returns
`success: false`). -/
theorem C3_counterexample :
    (tick hrAllFail c3state).logs =
      [{ action := "EXECUTING", workflow_id := some "wf",
         step_index := some 0 }] ∧
    (∀ e ∈ (tick hrAllFail c3state).logs, e.action ≠ "FAILED") ∧
    (findWorkflow (tick hrAllFail c3state).workflows "wf").map
      (fun w => (w.current_step, w.status)) = some (1, "running") := by
  decide

/-- C3 (amended).  When the dispatched step result has `success = false`
the workflow still advances: `current_step` is incremented, the failing
result is stored in the workflow's `results` map, the workflow is never
transitioned to `failed`, and no FAILED entry is appended to the log
sink. -/
theorem C3_failure_consumed (hr : Step → StepResult) (s : SchedState)
    (w : Workflow) (step : Step)
    (hnodup : (s.workflows.map Workflow.id).Nodup)
    (hmem : w ∈ s.workflows) (hstat : w.status = "running")
    (hstep : w.steps[w.current_step]? = some step)
    (hfail : (dispatchStep hr step).success = false) :
    ∃ w', findWorkflow (tick hr s).workflows w.id = some w' ∧
      w'.current_step = w.current_step + 1 ∧
      w'.status ≠ "failed" ∧
      (w.current_step, dispatchStep hr step) ∈ w'.results ∧
      (∀ e ∈ (tick hr s).logs, e ∈ s.logs ∨ e.action ≠ "FAILED") := by
  have htick := tick_find_running hr hmem hnodup hstat
  by_cases hdone : w.steps.length ≤ w.current_step + 1
  · rw [advanceResult_of_done hstep hdone] at htick
    refine ⟨_, htick, rfl,
      (show ("completed" : String) ≠ "failed" by decide), ?_,
      tick_logs_no_failed hr s⟩
    exact mem_setStepResult w.results w.current_step (dispatchStep hr step)
  · rw [advanceResult_of_mid hstep hdone] at htick
    refine ⟨_, htick, rfl, ?_, ?_, tick_logs_no_failed hr s⟩
    · show w.status ≠ "failed"
      rw [hstat]
      decide
    · exact mem_setStepResult w.results w.current_step (dispatchStep hr step)

/-- C3 witness: the amended theorem instantiated at the failing-handler
fixture. -/
theorem C3_failure_consumed_witness :
    ∃ w', findWorkflow (tick hrAllFail c3state).workflows cwf.id =
        some w' ∧
      w'.current_step = cwf.current_step + 1 ∧
      w'.status ≠ "failed" ∧
      (cwf.current_step,
        dispatchStep hrAllFail { type := "market_research" }) ∈ w'.results ∧
      (∀ e ∈ (tick hrAllFail c3state).logs,
        e ∈ c3state.logs ∨ e.action ≠ "FAILED") :=
  C3_failure_consumed hrAllFail c3state cwf { type := "market_research" }
    (by decide) (by decide) (by decide) (by decide) (by decide)

/-- Pending priority-5 workflow, first admission fixture. -/
def cp1 : Workflow :=
  { id := "p1", steps := [{ type := "a" }], status := "pending",
    priority := 5 }

/-- Pending priority-5 workflow with higher estimated revenue. -/
def cp2 : Workflow :=
  { id := "p2", steps := [{ type := "a" }], status := "pending",
    priority := 5, estimated_revenue := 7 }

/-- State with two eligible pending workflows and nothing running. -/
def c4state : SchedState :=
  { workflows := [cp1, cp2], agent := { status := "idle" } }

/-- C4.  The claim that admission fills all spare capacity in one tick
fails on the code: with no workflow running and two eligible pending
priority-5 workflows (capacity at least 2 under either cap), a single
tick admits exactly one of them. -/
theorem C4_counterexample :
    countRunning (tick hrAllOk c4state).workflows = 1 ∧
    countRunning c4state.workflows = 0 ∧
    (c4state.workflows.filter (fun w => w.status == "pending")).length = 2 ∧
    1 ≠ min (GENERAL_CAP - 0) 2 := by decide

/-- C4 (amended).  Each tick admits at most one pending workflow (the
two admission branches of server.py lines 886-925 each admit exactly
`revenue_workflows[0]` resp. `other_workflows[0]`); the admitted workflow
gets `status = running`, `started_at` set to the tick's timestamp, and
`active_workflows` incremented by one. -/
theorem C4_admit_one (hr : Step → StepResult) (s : SchedState)
    (hnodup : (s.workflows.map Workflow.id).Nodup) :
    (∀ w1 w2, w1 ∈ s.workflows → w2 ∈ s.workflows →
      admittedInTick hr s w1 → admittedInTick hr s w2 → w1 = w2) ∧
    (∀ w, w ∈ s.workflows → admittedInTick hr s w →
      findWorkflow (tick hr s).workflows w.id =
        some { w with
          status := "running",
          started_at := some (s.now + 1) } ∧
      (tick hr s).agent.active_workflows =
        s.agent.active_workflows + 1) := by
  constructor
  · intro w1 w2 h1 h2 ha1 ha2
    have hh1 := admittedInTick_head h1 hnodup ha1
    have hh2 := admittedInTick_head h2 hnodup ha2
    rw [hh1] at hh2
    exact Option.some.inj hh2
  · intro w hmem ha
    have hh := admittedInTick_head hmem hnodup ha
    obtain ⟨hpend, _⟩ := ha
    rcases tick_find_pending hr hmem hnodup hpend with ⟨_, hf⟩ | ⟨hne, _⟩
    · refine ⟨hf, ?_⟩
      rw [tick_active, hh]
      simp
    · exact absurd hh hne

/-- C4 witness: at the two-pending fixture the tick admits exactly the
revenue-ordered head, with `started_at` stamped and the counter bumped. -/
theorem C4_admit_one_witness :
    cp2 = cp2 ∧
    (findWorkflow (tick hrAllOk c4state).workflows cp2.id =
        some { cp2 with
          status := "running",
          started_at := some (c4state.now + 1) } ∧
      (tick hrAllOk c4state).agent.active_workflows =
        c4state.agent.active_workflows + 1) := by
  have hA : admittedInTick hrAllOk c4state cp2 :=
    ⟨by decide,
     { cp2 with status := "running", started_at := some 1 },
     by decide, by decide⟩
  exact ⟨(C4_admit_one hrAllOk c4state (by decide)).1 cp2 cp2 (by decide)
      (by decide) hA hA,
    (C4_admit_one hrAllOk c4state (by decide)).2 cp2 (by decide) hA⟩

/-- Running workflow fixture (snapshot occupant). -/
def cr1 : Workflow :=
  { id := "r1", steps := [{ type := "a" }], status := "running",
    priority := 1, current_step := 1 }

/-- Second running workflow fixture. -/
def cr2 : Workflow :=
  { id := "r2", steps := [{ type := "a" }], status := "running",
    priority := 1, current_step := 1 }

/-- Pending priority-5 workflow for the tier-inversion scenario. -/
def cp5 : Workflow :=
  { id := "p5", steps := [{ type := "a" }], status := "pending",
    priority := 5 }

/-- Pending priority-1 workflow for the tier-inversion scenario. -/
def cq1 : Workflow :=
  { id := "q1", steps := [{ type := "a" }], status := "pending",
    priority := 1 }

/-- Tier-inversion state: two running, one high- and one low-priority
pending. -/
def c5state : SchedState :=
  { workflows := [cr1, cr2, cp5, cq1], agent := { status := "idle" } }

/-- Pending workflow created earlier but with lower estimated revenue. -/
def ct1 : Workflow :=
  { id := "t1", steps := [], status := "pending", priority := 2,
    created_at := 0, estimated_revenue := 10 }

/-- Pending workflow created later but with higher estimated revenue. -/
def ct2 : Workflow :=
  { id := "t2", steps := [], status := "pending", priority := 2,
    created_at := 1, estimated_revenue := 20 }

/-- State exposing the tie-break order of the pending sort. -/
def c5sortstate : SchedState :=
  { workflows := [ct1, ct2], agent := { status := "idle" } }

/-- C5.  Both halves of the claim fail on the code: (a) with two
workflows running, the tick admits the pending priority-1 workflow while
the pending priority-5 workflow stays pending (the priority ≥ 4 branch is
gated by the stricter cap 2 and the elif only considers priority < 4);
(b) the pending sort tie-break is `estimated_revenue` descending, not
`created_at` ascending. -/
theorem C5_counterexample :
    ((findWorkflow (tick hrAllOk c5state).workflows "q1").map
        Workflow.status = some "running" ∧
      (findWorkflow (tick hrAllOk c5state).workflows "p5").map
        Workflow.status = some "pending" ∧
      (1 : Int) < 5 ∧ countRunning c5state.workflows = 2) ∧
    pendingSorted c5sortstate ≠
      (c5sortstate.workflows.filter
        (fun w => w.status == "pending")).insertionSort specPendOrder := by
  decide

/-- C5 (amended).  The pending snapshot is ordered by priority
descending with estimated-revenue descending as tie-break, and among two
pending workflows on the same side of the priority-4 threshold the
higher-priority one is never passed over: the lower one is not admitted
in that tick. -/
theorem C5_priority_order :
    (∀ s : SchedState, List.Pairwise pendOrder (pendingSorted s)) ∧
    (∀ (hr : Step → StepResult) (s : SchedState) (w1 w2 : Workflow),
      (s.workflows.map Workflow.id).Nodup →
      w1 ∈ s.workflows → w2 ∈ s.workflows →
      w1.status = "pending" → w2.status = "pending" →
      w2.priority < w1.priority →
      (w1.priority < 4 ∨ 4 ≤ w2.priority) →
      ∃ w2', findWorkflow (tick hr s).workflows w2.id = some w2' ∧
        w2'.status = "pending") := by
  refine ⟨fun s => pendingSorted_sorted s, ?_⟩
  intro hr s w1 w2 hnodup h1 h2 hs1 hs2 hp htier
  have hne := admittedHead_ne_lower h1 hs1 hp htier
  rcases tick_find_pending hr h2 hnodup hs2 with ⟨hh, _⟩ | ⟨_, hf⟩
  · exact absurd hh hne
  · exact ⟨w2, hf, hs2⟩

/-- Pending priority-3 workflow for the C5 witness. -/
def cu3 : Workflow :=
  { id := "u3", steps := [{ type := "a" }], status := "pending",
    priority := 3 }

/-- Pending priority-1 workflow for the C5 witness. -/
def cu1 : Workflow :=
  { id := "u1", steps := [{ type := "a" }], status := "pending",
    priority := 1 }

/-- State with two pending same-tier workflows and nothing running. -/
def c5wstate : SchedState :=
  { workflows := [cu3, cu1], agent := { status := "idle" } }

/-- C5 witness: with two pending priority < 4 workflows the tick leaves
the lower-priority one pending. -/
theorem C5_priority_order_witness :
    List.Pairwise pendOrder (pendingSorted c5wstate) ∧
    (∃ w2', findWorkflow (tick hrAllOk c5wstate).workflows cu1.id =
        some w2' ∧ w2'.status = "pending") :=
  ⟨C5_priority_order.1 c5wstate,
   C5_priority_order.2 hrAllOk c5wstate cu3 cu1 (by decide) (by decide)
     (by decide) (by decide) (by decide) (by decide)
     (Or.inl (by decide))⟩

/-- State with two running workflows and one pending priority-5. -/
def c6state : SchedState :=
  { workflows := [cr1, cr2, cp5], agent := { status := "idle" } }

/-- C6.  The claim's "higher cap reserved for workflows whose priority
exceeds a threshold" fails on the code: the priority ≥ 4 branch uses the
stricter cap 2, so with 2 running (still below MAX_CONCURRENT = 3) a
pending priority-5 workflow is not admitted. -/
theorem C6_counterexample :
    (findWorkflow (tick hrAllOk c6state).workflows "p5").map
        Workflow.status = some "pending" ∧
    countRunning c6state.workflows = 2 ∧
    2 < GENERAL_CAP ∧ (4 : Int) ≤ 5 := by decide

/-- C6 (amended).  The two-tier cap of server.py lines 886-925 has the
lower cap 2 on the priority ≥ 4 tier, evaluated before the general cap 3:
the running count never exceeds 3 after a tick when it did not before; a
priority ≥ 4 pending workflow stays pending once 2 are running; and
nothing is admitted once 3 are running. -/
theorem C6_two_tier_cap (hr : Step → StepResult) (s : SchedState)
    (hnodup : (s.workflows.map Workflow.id).Nodup)
    (hcap : countRunning s.workflows ≤ GENERAL_CAP) :
    countRunning (tick hr s).workflows ≤ GENERAL_CAP ∧
    (∀ w ∈ s.workflows, w.status = "pending" → 4 ≤ w.priority →
      REVENUE_CAP ≤ countRunning s.workflows →
      ∃ w', findWorkflow (tick hr s).workflows w.id = some w' ∧
        w'.status = "pending") ∧
    (∀ w ∈ s.workflows, w.status = "pending" →
      GENERAL_CAP ≤ countRunning s.workflows →
      ∃ w', findWorkflow (tick hr s).workflows w.id = some w' ∧
        w'.status = "pending") := by
  refine ⟨tick_countRunning hnodup hcap, ?_, ?_⟩
  · intro w hw hpend hprio hge
    rcases tick_find_pending hr hw hnodup hpend with ⟨hh, _⟩ | ⟨_, hf⟩
    · have := admittedHead_priority_of_ge2 hge hh
      omega
    · exact ⟨w, hf, hpend⟩
  · intro w hw hpend hge
    rcases tick_find_pending hr hw hnodup hpend with ⟨hh, _⟩ | ⟨_, hf⟩
    · rw [admittedHead_none_of_ge3 hge] at hh
      exact Option.noConfusion hh
    · exact ⟨w, hf, hpend⟩

/-- C6 witness: the amended cap theorem instantiated at the 2-running
fixture. -/
theorem C6_two_tier_cap_witness :
    countRunning (tick hrAllOk c6state).workflows ≤ GENERAL_CAP ∧
    (∀ w ∈ c6state.workflows, w.status = "pending" → 4 ≤ w.priority →
      REVENUE_CAP ≤ countRunning c6state.workflows →
      ∃ w', findWorkflow (tick hrAllOk c6state).workflows w.id = some w' ∧
        w'.status = "pending") ∧
    (∀ w ∈ c6state.workflows, w.status = "pending" →
      GENERAL_CAP ≤ countRunning c6state.workflows →
      ∃ w', findWorkflow (tick hrAllOk c6state).workflows w.id = some w' ∧
        w'.status = "pending") :=
  C6_two_tier_cap hrAllOk c6state (by decide) (by decide)

lemma dispatchStep_unknown (hr : Step → StepResult) {step : Step}
    (h : step.type ∉ knownHandlerTypes) :
    dispatchStep hr step =
      { success := true, executed := true, step_type := some step.type } := by
  simp only [knownHandlerTypes, List.mem_cons, List.not_mem_nil, or_false,
    not_or] at h
  obtain ⟨h1, h2, h3, h4, h5⟩ := h
  simp only [dispatchStep, if_neg h1, if_neg h2, if_neg h3, if_neg h4,
    if_neg h5]

/-- C7.  A step whose `type` has no registered handler dispatches to the
default branch of server.py line 767 — a total function returning a
trivial success tagged with the unrecognized type — and the workflow
still advances past such a step, the default result being stored in its
`results` map. -/
theorem C7_unknown_type_default :
    (∀ (hr : Step → StepResult) (step : Step),
      step.type ∉ knownHandlerTypes →
      dispatchStep hr step =
        { success := true, executed := true,
          step_type := some step.type }) ∧
    (∀ (hr : Step → StepResult) (s : SchedState) (w : Workflow)
      (step : Step),
      (s.workflows.map Workflow.id).Nodup → w ∈ s.workflows →
      w.status = "running" →
      w.steps[w.current_step]? = some step →
      step.type ∉ knownHandlerTypes →
      ∃ w', findWorkflow (tick hr s).workflows w.id = some w' ∧
        w'.current_step = w.current_step + 1 ∧
        (w.current_step,
          { success := true, executed := true,
            step_type := some step.type : StepResult }) ∈ w'.results) := by
  refine ⟨fun hr step h => dispatchStep_unknown hr h, ?_⟩
  intro hr s w step hnodup hmem hstat hstep hunk
  have htick := tick_find_running hr hmem hnodup hstat
  by_cases hdone : w.steps.length ≤ w.current_step + 1
  · rw [advanceResult_of_done hstep hdone] at htick
    refine ⟨_, htick, rfl, ?_⟩
    rw [← dispatchStep_unknown hr hunk]
    exact mem_setStepResult w.results w.current_step (dispatchStep hr step)
  · rw [advanceResult_of_mid hstep hdone] at htick
    refine ⟨_, htick, rfl, ?_⟩
    rw [← dispatchStep_unknown hr hunk]
    exact mem_setStepResult w.results w.current_step (dispatchStep hr step)

/-- C7 witness: the unknown type "a" of the 3-step fixture dispatches to
the tagged default and the workflow advances. -/
theorem C7_unknown_type_default_witness :
    dispatchStep hrAllOk { type := "zzz" } =
      { success := true, executed := true, step_type := some "zzz" } ∧
    (∃ w', findWorkflow (tick hrAllOk c1state).workflows cw1.id =
        some w' ∧
      w'.current_step = cw1.current_step + 1 ∧
      (cw1.current_step,
        { success := true, executed := true,
          step_type := some "a" : StepResult }) ∈ w'.results) :=
  ⟨C7_unknown_type_default.1 hrAllOk { type := "zzz" } (by decide),
   C7_unknown_type_default.2 hrAllOk c1state cw1 { type := "a" }
     (by decide) (by decide) (by decide) (by decide) (by decide)⟩

/-- C8.  Advancement precedes admission within a tick: a workflow that
was pending at the start of a tick has no step dispatched in that tick —
its `current_step`, `results`, `progress` and `completed_at` are
unchanged even if it was admitted. -/
theorem C8_no_same_tick_dispatch (hr : Step → StepResult) (s : SchedState)
    (w : Workflow)
    (hnodup : (s.workflows.map Workflow.id).Nodup)
    (hmem : w ∈ s.workflows) (hstat : w.status = "pending") :
    ∃ w', findWorkflow (tick hr s).workflows w.id = some w' ∧
      w'.current_step = w.current_step ∧
      w'.results = w.results ∧
      w'.progress = w.progress ∧
      w'.completed_at = w.completed_at ∧
      w'.steps = w.steps := by
  rcases tick_find_pending hr hmem hnodup hstat with ⟨_, hf⟩ | ⟨_, hf⟩
  · exact ⟨_, hf, rfl, rfl, rfl, rfl, rfl⟩
  · exact ⟨w, hf, rfl, rfl, rfl, rfl, rfl⟩

/-- C8 witness: the admitted workflow of the two-pending fixture has its
step state untouched in the admitting tick. -/
theorem C8_no_same_tick_dispatch_witness :
    ∃ w', findWorkflow (tick hrAllOk c4state).workflows cp2.id =
        some w' ∧
      w'.current_step = cp2.current_step ∧
      w'.results = cp2.results ∧
      w'.progress = cp2.progress ∧
      w'.completed_at = cp2.completed_at ∧
      w'.steps = cp2.steps :=
  C8_no_same_tick_dispatch hrAllOk c4state cp2 (by decide) (by decide)
    (by decide)

/-- C9.  The claim that creation rejects an empty `steps` list fails on
the code: `create_workflow` (server.py lines 970-993) performs no
validation, and a request with `steps = []` creates a pending workflow
record with zero steps. -/
theorem C9_counterexample :
    (findWorkflow (create_workflow "id0"
        { name := "n", type := "general", steps := [] }
        { workflows := [], agent := { status := "idle" } }).workflows
      "id0").map (fun w => (w.status, w.steps.length)) =
      some ("pending", 0) := by decide

/-- C9 (amended).  `create_workflow` stores the request's `steps` list
unvalidated: every call — including one with an empty list — appends a
record in status `pending` with `current_step = 0`, `progress = 0` and
exactly the submitted steps. -/
theorem C9_no_validation (wid : String) (req : WorkflowCreate)
    (s : SchedState) :
    ∃ w, (create_workflow wid req s).workflows = s.workflows ++ [w] ∧
      w.id = wid ∧ w.status = "pending" ∧ w.steps = req.steps ∧
      w.current_step = 0 ∧ w.progress = 0 :=
  ⟨_, rfl, rfl, rfl, rfl, rfl, rfl⟩

/-- Pending zero-step workflow fixture. -/
def ce0 : Workflow :=
  { id := "e0", steps := [], status := "pending", priority := 5 }

/-- State holding only the pending zero-step workflow. -/
def c10state : SchedState :=
  { workflows := [ce0], agent := { status := "idle" } }

/-- Running zero-step workflow fixture. -/
def ce0run : Workflow :=
  { id := "e0", steps := [], status := "running", priority := 5 }

/-- State holding only the running zero-step workflow. -/
def c10rstate : SchedState :=
  { workflows := [ce0run], agent := { status := "idle" } }

/-- C10.  A pending workflow with an empty step list is admitted like any
other when capacity allows (admission never inspects `steps`), and once
running it is a fixed point of the tick: its record — status `running`,
`current_step` and `progress` unchanged, `completed_at` unset — persists
unchanged for every further tick. -/
theorem C10_empty_steps_stuck :
    (∀ (hr : Step → StepResult) (s : SchedState) (w : Workflow),
      (s.workflows.map Workflow.id).Nodup → w ∈ s.workflows →
      w.status = "pending" → w.steps = [] → 4 ≤ w.priority →
      countRunning s.workflows < REVENUE_CAP →
      (revenueList s).head? = some w →
      findWorkflow (tick hr s).workflows w.id =
        some { w with
          status := "running",
          started_at := some (s.now + 1) }) ∧
    (∀ (hr : Step → StepResult) (s : SchedState) (w : Workflow) (m : Nat),
      (s.workflows.map Workflow.id).Nodup → w ∈ s.workflows →
      w.status = "running" → w.steps = [] →
      findWorkflow (iterTick hr m s).workflows w.id = some w) := by
  constructor
  · intro hr s w hnodup hmem hpend hsteps hprio hcount hhead
    have hcond : (runningSnapshot s).length < 2 ∧ revenueList s ≠ [] := by
      constructor
      · rw [runningSnapshot_length]
        exact hcount
      · intro hnil
        rw [hnil] at hhead
        simp at hhead
    have hh : admittedHead s = some w := by
      unfold admittedHead
      rw [if_pos hcond]
      exact hhead
    rcases tick_find_pending hr hmem hnodup hpend with ⟨_, hf⟩ | ⟨hne, _⟩
    · exact hf
    · exact absurd hh hne
  · intro hr s w m hnodup hmem hrun hsteps
    exact iter_empty_running_fixed hmem hnodup hrun hsteps m

/-- C10 witness: the zero-step fixtures — admitted in one tick while
pending, and unchanged across 5 ticks while running. -/
theorem C10_empty_steps_stuck_witness :
    findWorkflow (tick hrAllOk c10state).workflows ce0.id =
      some { ce0 with
        status := "running",
        started_at := some (c10state.now + 1) } ∧
    findWorkflow (iterTick hrAllOk 5 c10rstate).workflows ce0run.id =
      some ce0run :=
  ⟨C10_empty_steps_stuck.1 hrAllOk c10state ce0 (by decide) (by decide)
     (by decide) (by decide) (by decide) (by decide) (by decide),
   C10_empty_steps_stuck.2 hrAllOk c10rstate ce0run 5 (by decide)
     (by decide) (by decide) (by decide)⟩

end WorkflowManager
